import Mathlib

/-!
Shallow embedding of the VDS/IDB wire-format library (TypeScript sources:
utils (C40/date/TLV sub-encoders), vds (seal structure), idb (barcode header)).

Conventions of the embedding:
* byte strings (JS `Uint8Array`) are `List Nat`; reads past the end of an
  array yield JS `undefined`, which the numeric operators of the source
  (`& 0xff`, `>>`) turn into `0`, modelled by `List.getD _ _ 0`;
* text strings are `List Nat` of UTF-16 code units;
* a function that can `throw` returns `Option`, `none` being the error;
* `toUpperCase`/`toLowerCase` are modelled on the ASCII range, the only
  range the library's data (C40 alphabet, hex digits, date strings) uses.
-/

namespace VdsLib

/-- Effect of JS `toUpperCase` on one ASCII code unit. -/
def asciiUpper (c : Nat) : Nat := if 97 ≤ c ∧ c ≤ 122 then c - 32 else c

/-- Effect of JS `toLowerCase` on one ASCII code unit. -/
def asciiLower (c : Nat) : Nat := if 65 ≤ c ∧ c ≤ 90 then c + 32 else c

/-- Big-endian base-256 value of a byte string, as computed by the noble
`bytesToNumberBE` helper (entries of a `Uint8Array` are bytes, recorded by
the reduction `% 256`). -/
def bytesToNumberBE (bs : List Nat) : Nat :=
  bs.foldl (fun acc b => acc * 256 + b % 256) 0

/-- Number of hexadecimal digits of `n` (`1` for `0`), the length of the JS
string `n.toString(16)`. -/
def hexLen (n : Nat) : Nat :=
  if h : n < 16 then 1 else 1 + hexLen (n / 16)
termination_by n
decreasing_by exact Nat.div_lt_self (by omega) (by omega)

/-- Fixed-width big-endian bytes of `n` (`k` bytes, most significant first). -/
def beBytes (k n : Nat) : List Nat :=
  (List.range k).map fun i => n / 256 ^ (k - 1 - i) % 256

/-- Model of noble `numberToBytesBE(n, len)`, which is
`hexToBytes(n.toString(16).padStart(len * 2, "0"))`: the hex string is the
number's digits left-padded to `2 * len`; `hexToBytes` throws when that
string has odd length (possible only when `n` overflows `len` bytes). -/
def numberToBytesBE (n len : Nat) : Option (List Nat) :=
  let hl := max (2 * len) (hexLen n)
  if hl % 2 = 1 then none else some (beBytes (hl / 2) n)

/-- Recursion core of `decDigits`, structural in a fuel argument so that
it evaluates by kernel reduction. -/
def decDigitsGo : Nat → Nat → List Nat
  | _, 0 => []
  | n, fuel + 1 =>
      if n < 10 then [48 + n] else decDigitsGo (n / 10) fuel ++ [48 + n % 10]

/-- Decimal digit code units of `n`, the JS string `n.toString()`. -/
def decDigits (n : Nat) : List Nat := decDigitsGo n (n + 1)

/-- JS `String.prototype.padStart(k, fill)` for a one-character filler. -/
def padStartWith (k fill : Nat) (l : List Nat) : List Nat :=
  List.replicate (k - l.length) fill ++ l

/-- Code unit is a decimal digit. -/
def isDigitCode (c : Nat) : Prop := 48 ≤ c ∧ c ≤ 57

instance (c : Nat) : Decidable (isDigitCode c) := by
  unfold isDigitCode; infer_instance

/-- Code units JS `parseInt` skips as leading whitespace. -/
def isJsSpace (c : Nat) : Bool :=
  c = 9 || c = 10 || c = 11 || c = 12 || c = 13 || c = 32 || c = 160 ||
  c = 8232 || c = 8233 || c = 65279

/-- Decimal value of a digit run. -/
def digitRunVal (l : List Nat) : Nat :=
  l.foldl (fun acc c => acc * 10 + (c - 48)) 0

/-- Model of JS `parseInt(s)` (radix 10): skip leading whitespace, an
optional sign, then the longest run of decimal digits; `none` is `NaN`.
The hex-prefix branch of `parseInt` (leading `0x`) is omitted: the library
always calls it on strings that cannot contain `x`. -/
def parseIntJS (s : List Nat) : Option Int :=
  let s1 := s.dropWhile isJsSpace
  let neg := s1.headD 0 = 45
  let s2 := if s1.headD 0 = 43 ∨ s1.headD 0 = 45 then s1.drop 1 else s1
  let ds := s2.takeWhile (fun c => decide (isDigitCode c))
  if ds = [] then none
  else if neg then some (-(digitRunVal ds : Int)) else some ((digitRunVal ds : Int))

/-- JS `ToUint32` applied to a `parseInt` result (`NaN` becomes `0`). -/
def jsToUint32 : Option Int → Nat
  | none => 0
  | some z => (z.emod 4294967296).toNat

/-- JS `Array.prototype.slice(start, end)` index semantics: negative
indices count from the end, both are clamped to the array bounds. -/
def jsSlice (l : List Nat) (s e : Int) : List Nat :=
  let len : Int := l.length
  let s' := (if s < 0 then max (len + s) 0 else min s len).toNat
  let e' := (if e < 0 then max (len + e) 0 else min e len).toNat
  (l.drop s').take (e' - s')

/-- One step of the JS 32-bit accumulation `length = (length << 8) | b`
for a byte `b`: the accumulator is wrapped to a signed 32-bit integer. -/
def int32Step (acc : Int) (b : Nat) : Int :=
  let w := (acc * 256 + (b % 256 : Nat)).emod 4294967296
  if w < 2147483648 then w else w - 4294967296

namespace C40Encoder

/-- Source `C40Encoder.getC40Value`: C40 value of a code unit (`& 0xFF`
applied first); `none` models the thrown error for a non-encodable char. -/
def getC40Value (c : Nat) : Option Nat :=
  let v := c % 256
  if v = 32 then some 3
  else if 48 ≤ v ∧ v ≤ 57 then some (v - 44)
  else if 65 ≤ v ∧ v ≤ 90 then some (v - 51)
  else none

/-- Source `C40Encoder.getChar`: characters for a C40 value (value `0`
yields the empty string); `none` models the thrown error. The argument is
an `Int` because the decoder computes sub-values with `Math.floor` on a
quantity that can be `-1`. -/
def getChar (v : Int) : Option (List Nat) :=
  if v = 3 then some [32]
  else if 4 ≤ v ∧ v ≤ 13 then some [(v + 44).toNat]
  else if 14 ≤ v ∧ v ≤ 39 then some [(v + 51).toNat]
  else if v = 0 then some []
  else none

/-- Normalization at the start of `C40Encoder.encode`: upper-case,
turn every `<` into a space, strip carriage returns and newlines. -/
def normalize (s : List Nat) : List Nat :=
  ((((s.map asciiUpper).map fun c => if c = 60 then 32 else c).filter
      fun c => c ≠ 13).filter fun c => c ≠ 10)

/-- Chunking loop of `C40Encoder.encode` (indices `i % 3 == 0`): a full
triple and a trailing pair pack into a big-endian 16-bit sum, a trailing
single character becomes the `0xFE` escape (no C40 validation there). -/
def encodeCore : List Nat → Option (List Nat)
  | [] => some []
  | [a] => some [254, a % 256 + 1]
  | [a, b] => do
      let c1 ← getC40Value a
      let c2 ← getC40Value b
      let sum := 1600 * c1 + 40 * c2 + 1
      some [sum / 256, sum % 256]
  | a :: b :: c :: rest => do
      let c1 ← getC40Value a
      let c2 ← getC40Value b
      let c3 ← getC40Value c
      let sum := 1600 * c1 + 40 * c2 + c3 + 1
      let tail ← encodeCore rest
      some ([sum / 256, sum % 256] ++ tail)

/-- Source `C40Encoder.encode`. -/
def encode (s : List Nat) : Option (List Nat) :=
  encodeCore (normalize s)

/-- Pair loop of `C40Encoder.decode` (`idx < bytes.length - 1`, step 2):
a final unpaired byte is never visited. `String.fromCharCode(i2 - 1)`
wraps through `ToUint16`. -/
def decodeCore : List Nat → Option (List Nat)
  | b1 :: b2 :: rest =>
      if b1 % 256 = 254 then do
        let tail ← decodeCore rest
        some (((b2 % 256 + 65535) % 65536) :: tail)
      else do
        let v : Int := (b1 % 256 : Nat) * 256 + (b2 % 256 : Nat) - 1
        let u1 : Int := v.fdiv 1600
        let r : Int := v - u1 * 1600
        let u2 : Int := r.fdiv 40
        let u3 : Int := r - u2 * 40
        let p1 ← if u1 ≠ 0 then getChar u1 else some []
        let p2 ← if u2 ≠ 0 then getChar u2 else some []
        let p3 ← if u3 ≠ 0 then getChar u3 else some []
        let tail ← decodeCore rest
        some (p1 ++ p2 ++ p3 ++ tail)
  | _ => some []

/-- Source `C40Encoder.decode`. -/
def decode (bs : List Nat) : Option (List Nat) :=
  decodeCore bs

end C40Encoder

/-- A code unit the regex metacharacter `.` matches (anything but a JS
line terminator). -/
def isRegexDot (c : Nat) : Bool :=
  c ≠ 10 && c ≠ 13 && c ≠ 8232 && c ≠ 8233

/-- Match of `/(.{4})-(.{2})-(.{2})/` at position `i` of `s`. -/
def maskedDateMatchAt (s : List Nat) (i : Nat) : Bool :=
  decide (i + 10 ≤ s.length) &&
  ((s.drop i).take 4).all isRegexDot &&
  decide (s.getD (i + 4) 0 = 45) &&
  ((s.drop (i + 5)).take 2).all isRegexDot &&
  decide (s.getD (i + 7) 0 = 45) &&
  ((s.drop (i + 8)).take 2).all isRegexDot

/-- Leftmost match position of `/(.{4})-(.{2})-(.{2})/` in `s`
(the source's `MASKED_DATE_REGEX`), `none` when the regex does not match. -/
def maskedDateFind (s : List Nat) : Option Nat :=
  (List.range (s.length + 1)).find? (maskedDateMatchAt s)

/-- Match of `/(.{2})(.{2})(.{4})/` at position `i` of `s`. -/
def dateGroupsMatchAt (s : List Nat) (i : Nat) : Bool :=
  decide (i + 8 ≤ s.length) && ((s.drop i).take 8).all isRegexDot

/-- Leftmost match position of `/(.{2})(.{2})(.{4})/` in `s`. -/
def dateGroupsFind (s : List Nat) : Option Nat :=
  (List.range (s.length + 1)).find? (dateGroupsMatchAt s)

namespace DateEncoder

/-- Model of a JS `Date` through the three projections the encoder reads:
`getMonth() + 1` (in `1..12`), `getDate()` (in `1..31`) and
`getFullYear()` (non-negative here; the library formats years with
`padStart(4, "0")`, i.e. is written for common-era dates). -/
structure JSDate where
  month1 : Nat
  day : Nat
  year : Nat

/-- Source `DateEncoder.encode`: decimal-concatenate `MMDDYYYY`
(components padded with `padStart`), `parseInt` the result, and pack it
with `numberToBytesBE(_, 3)`. -/
def encode (d : JSDate) : Option (List Nat) :=
  let s := padStartWith 2 48 (decDigits d.month1) ++
    padStartWith 2 48 (decDigits d.day) ++ padStartWith 4 48 (decDigits d.year)
  match parseIntJS s with
  | none => none
  | some v => numberToBytesBE v.toNat 3

/-- Source `DateEncoder.decode`: 3 bytes exactly, else an error; returns
the arguments `(year, month - 1, day)` handed to the `Date` constructor
(whose calendar normalization is external library behaviour). -/
def decode (bs : List Nat) : Option (Int × Int × Int) :=
  if bs.length ≠ 3 then none
  else
    let intValue := bytesToNumberBE bs
    let day := intValue % 1000000 / 10000
    let month := intValue / 1000000
    let year := intValue % 10000
    some ((year : Int), (month : Int) - 1, (day : Int))

/-- Source `DateEncoder.decodeDateTime`: 6 bytes exactly, else an error;
returns the six `parseInt` results (month, day, year, hour, minute,
second) handed to the `Date` constructor. -/
def decodeDateTime (bs : List Nat) : Option (List (Option Int)) :=
  if bs.length ≠ 6 then none
  else
    let padded := padStartWith 14 48 (decDigits (bytesToNumberBE bs))
    some [parseIntJS ((padded.drop 0).take 2), parseIntJS ((padded.drop 2).take 2),
      parseIntJS ((padded.drop 4).take 4), parseIntJS ((padded.drop 8).take 2),
      parseIntJS ((padded.drop 10).take 2), parseIntJS ((padded.drop 12).take 2)]

/-- Source `DateEncoder.encodeMaskedDate`: reject when the regex finds no
match; reorder the first match's groups to `$2$3$1` (`MMDDYYYY`),
lower-case, read the number with `x` as `0`, and emit mask byte plus the
three low bytes of the (`ToUint32`-converted) value. -/
def encodeMaskedDate (s : List Nat) : Option (List Nat) :=
  match maskedDateFind s with
  | none => none
  | some i =>
      let formatted := ((s.take i ++ (s.drop (i + 5)).take 2 ++
        (s.drop (i + 8)).take 2 ++ (s.drop i).take 4 ++
        s.drop (i + 10)).map asciiLower)
      let dateInt := parseIntJS (formatted.map fun c => if c = 120 then 48 else c)
      let u := jsToUint32 dateInt
      let mask := (List.range 8).foldl
        (fun m k => if formatted.getD k 0 = 120 then m ||| (128 >>> k) else m) 0
      some [mask % 256, u >>> 16 % 256, u >>> 8 % 256, u % 256]

/-- Source `DateEncoder.decodeMaskedDate`: 4 bytes exactly, else an
error; unpack the 3-byte value into the 8-digit `MMDDYYYY` string, write
`x` over the positions flagged in the mask byte, and reorder through
`replace(/(.{2})(.{2})(.{4})/, "$3-$1-$2").toLowerCase()`. -/
def decodeMaskedDate (bs : List Nat) : Option (List Nat) :=
  if bs.length ≠ 4 then none
  else
    let mask := bs.getD 0 0
    let intval := bytesToNumberBE (bs.drop 1)
    let day := intval % 1000000 / 10000
    let month := intval / 1000000
    let year := intval % 10000
    let dca := padStartWith 2 48 (decDigits month) ++
      padStartWith 2 48 (decDigits day) ++ padStartWith 4 48 (decDigits year)
    let masked := (List.range 8).foldl
      (fun arr k => if (mask >>> (7 - k)) &&& 1 = 1 then arr.set k 120 else arr) dca
    let reordered :=
      match dateGroupsFind masked with
      | none => masked
      | some i => masked.take i ++ (masked.drop (i + 4)).take 4 ++ [45] ++
          (masked.drop i).take 2 ++ [45] ++ (masked.drop (i + 2)).take 2 ++
          masked.drop (i + 8)
    some (reordered.map asciiLower)

end DateEncoder

/-- A DER-style tag-value pair (source class `DerTLV`). -/
structure DerTLV where
  tag : Nat
  value : List Nat
deriving DecidableEq, Repr

namespace DerTLV

/-- Leading zero bytes `DerTLV.getDerInteger` strips: the count of zeros
before the first non-zero byte, never touching the last byte
(`startIndex < value.length - 1`). -/
def stripCount : List Nat → Nat
  | [] => 0
  | [_] => 0
  | a :: b :: rest => if a = 0 then 1 + stripCount (b :: rest) else 0

/-- Source `DerTLV.getDerLength`. The long form materializes
`numberToBytesBE(length, 4)` (JS array lengths stay below `2 ^ 32`,
recorded by the reduction), scans indices `1..3` for zeros, and keeps
`lengthBytes.slice(4 - byteCount)`. -/
def getDerLength (len : Nat) : List Nat :=
  if len ≤ 127 then [len % 256]
  else
    let lengthBytes := beBytes 4 (len % 4294967296)
    let byteCount :=
      if lengthBytes.getD 1 0 ≠ 0 then 1
      else if lengthBytes.getD 2 0 ≠ 0 then 2
      else if lengthBytes.getD 3 0 ≠ 0 then 3
      else 4
    let actualLengthBytes := lengthBytes.drop (4 - byteCount)
    ((128 ||| actualLengthBytes.length) % 256) :: actualLengthBytes

/-- Source `DerTLV.encoded`: tag byte, DER length, value (the tag passes
through a `Uint8Array` literal, hence `% 256`). -/
def encoded (t : DerTLV) : List Nat :=
  t.tag % 256 :: getDerLength t.value.length ++ t.value

/-- Source `DerTLV.getDerInteger`: prepend a zero byte when the first
byte has its high bit set, otherwise strip redundant leading zero bytes;
wrap as an INTEGER (tag 2) TLV. -/
def getDerInteger (value : List Nat) : List Nat :=
  let positiveValue :=
    if value.getD 0 0 &&& 128 ≠ 0 then 0 :: value
    else value.drop (stripCount value)
  DerTLV.encoded ⟨2, positiveValue⟩

/-- Source `DerTLV.decode`: `null` on empty input; otherwise read the
length byte (a read past the end is `undefined & 0xff = 0`); the long
form replaces `(lengthByteCount, length)` after accumulating the
extension bytes with 32-bit `(length << 8) | b` arithmetic; one final
`slice` (clamped, negative-index JS semantics) cuts the value. Never
fails on non-empty input. -/
def decode : List Nat → Option DerTLV
  | [] => none
  | t :: rest =>
      let l0 := rest.getD 0 0 % 256
      let p : Nat × Int :=
        if l0 > 127 then
          (1 + (l0 - 128), (List.range (l0 - 128)).foldl
            (fun acc i => int32Step acc (rest.getD (1 + i) 0)) 0)
        else (1, (l0 : Int))
      some ⟨t, jsSlice (t :: rest) ((1 + p.1 : Nat) : Int) (((1 + p.1 : Nat) : Int) + p.2)⟩

end DerTLV

/-- Source `parseTLVs` loop body, recursing on the bytes left at the
current position. A buffer ending right after a tag byte throws
(`position >= rawBytes.length` before the length byte); the `0x81/0x82/
0x83` extension bytes and the value are read with JS clamping semantics
(missing extension bytes are `0`, the value `slice` truncates). -/
def parseTLVs : List Nat → Option (List DerTLV)
  | [] => some []
  | [_] => none
  | t :: l :: rest =>
      let l' := l % 256
      if l' > 127 ∧ l' ≠ 129 ∧ l' ≠ 130 ∧ l' ≠ 131 then none
      else
        let le :=
          if l' = 129 then rest.getD 0 0 % 256
          else if l' = 130 then (rest.getD 0 0 % 256) * 256 + rest.getD 1 0 % 256
          else if l' = 131 then (rest.getD 0 0 % 256) * 65536 +
            (rest.getD 1 0 % 256) * 256 + rest.getD 2 0 % 256
          else l'
        let after :=
          if l' = 129 then rest.drop 1
          else if l' = 130 then rest.drop 2
          else if l' = 131 then rest.drop 3
          else rest
        (parseTLVs (after.drop le)).map (⟨t, after.take le⟩ :: ·)
termination_by l => l.length
decreasing_by
  all_goals (split <;> (try split) <;> (try split) <;>
    simp only [List.length_drop, List.length_cons] <;> omega)

/-- An ECDSA signature in the library's raw form: the two halves of a
TLV value (source class `AbstractECDSARawSignature`). -/
structure ECDSARawSignature where
  r : List Nat
  s : List Nat
deriving DecidableEq, Repr

namespace ECDSARawSignature

/-- Source `AbstractECDSARawSignature.encoded` for a framing tag:
`TLV(tag, r ‖ s)`. -/
def encodedWithTag (tagv : Nat) (g : ECDSARawSignature) : List Nat :=
  DerTLV.encoded ⟨tagv, g.r ++ g.s⟩

/-- Source `AbstractECDSARawSignature.toDER`:
`TLV(0x30, DER-INTEGER(r) ‖ DER-INTEGER(s))`. -/
def toDER (g : ECDSARawSignature) : List Nat :=
  DerTLV.encoded ⟨48, DerTLV.getDerInteger g.r ++ DerTLV.getDerInteger g.s⟩

/-- Source `AbstractECDSARawSignature.decode` for the subclass tag `TAG`
(0xFF for VDS, 0x7F for IDB): tag mismatch throws (an empty input reads
`undefined`, which also mismatches); the TLV value is split at
`value.length / 2`, an index JS truncates for odd lengths. -/
def decode (TAG : Nat) (data : List Nat) : Option ECDSARawSignature :=
  match data with
  | [] => none
  | t :: _ =>
      if t ≠ TAG then none
      else
        match DerTLV.decode data with
        | none => none
        | some parsed =>
            some ⟨parsed.value.take (parsed.value.length / 2),
              parsed.value.drop (parsed.value.length / 2)⟩

end ECDSARawSignature

/-- Source class `VDSHeader` (its data fields; dates through the `JSDate`
projections). -/
structure VDSHeader where
  issuingCountry : List Nat
  signerIdentifier : List Nat
  certificateReference : List Nat
  issuingDate : DateEncoder.JSDate
  sigDate : DateEncoder.JSDate
  docFeatureRef : Nat
  docTypeCat : Nat
  rawVersion : Nat

namespace VDSHeader

/-- Lowercase hexadecimal digit code units of `n`, the JS string
`n.toString(16)`. -/
def hexDigits (n : Nat) : List Nat :=
  if h : n < 16 then [if n < 10 then 48 + n else 87 + n]
  else hexDigits (n / 16) ++ [if n % 16 < 10 then 48 + n % 16 else 87 + n % 16]
termination_by n
decreasing_by exact Nat.div_lt_self (by omega) (by omega)

/-- Source getter `encodedSignerIdentifierAndCertificateReference`:
version 2 pads the certificate reference to five characters with spaces,
upper-cases and turns every space into `0` (throwing when it is longer
than five); version 3 inserts the reference's length as two hex digits;
other versions yield the empty string. -/
def sidAndCertRef (h : VDSHeader) : Option (List Nat) :=
  if h.rawVersion = 2 then
    if h.certificateReference.length > 5 then none
    else some (((h.signerIdentifier ++
      padStartWith 5 32 h.certificateReference).map asciiUpper).map
        fun c => if c = 32 then 48 else c)
  else if h.rawVersion = 3 then
    some ((h.signerIdentifier ++ padStartWith 2 48 (hexDigits h.certificateReference.length) ++
      h.certificateReference).map asciiUpper)
  else some []

/-- Source `VDSHeader.encoded`: magic byte `0xDC`, raw version, C40 of
the country, C40 of signer-id + certificate reference, the two packed
dates, the two document bytes; the whole buffer passes through a
`Uint8Array` constructor (`% 256`). -/
def encoded (h : VDSHeader) : Option (List Nat) := do
  let country ← C40Encoder.encode h.issuingCountry
  let sid ← h.sidAndCertRef
  let sidBytes ← C40Encoder.encode sid
  let d1 ← DateEncoder.encode h.issuingDate
  let d2 ← DateEncoder.encode h.sigDate
  some ((220 :: h.rawVersion :: country ++ sidBytes ++ d1 ++ d2 ++
    [h.docFeatureRef, h.docTypeCat]).map (· % 256))

end VDSHeader

/-- Source class `Seal`: header, ordered message TLVs, optional
signature (the `VDSSignature` subclass fixes the framing tag `0xFF`). -/
structure Seal where
  header : VDSHeader
  messageList : List DerTLV
  signature : Option ECDSARawSignature

namespace Seal

/-- Source getter `Seal.signedBytes`:
`concatBytes(header.encoded, ...messageList.map(i => i.encoded))`. -/
def signedBytes (s : Seal) : Option (List Nat) :=
  s.header.encoded.map (· ++ (s.messageList.map DerTLV.encoded).flatten)

/-- Source getter `Seal.encoded`: the signed bytes, with the signature's
raw TLV (tag `0xFF`) appended when a signature is present. -/
def encoded (s : Seal) : Option (List Nat) :=
  match s.signature with
  | none => s.signedBytes
  | some g => s.signedBytes.map (· ++ g.encodedWithTag 255)

end Seal

/-- Source class `IDBHeader` (its data fields; the masked signature
creation date as the decoded text). -/
structure IDBHeader where
  countryIdentifier : List Nat
  signatureAlgorithm : Option Nat
  certificateReference : Option (List Nat)
  signatureCreationDate : Option (List Nat)
deriving DecidableEq, Repr

namespace IDBHeader

/-- Source `IDBHeader.decode`: length must lie in `[2, 12]`; 2 bytes of
C40 country (spaces back to `<`); stop there for a 2-byte header, else
read the algorithm byte, 5 certificate-reference bytes and the 4-byte
masked date (both `subarray`s clamped by JS). -/
def decode (data : List Nat) : Option IDBHeader :=
  if ¬(2 ≤ data.length ∧ data.length ≤ 12) then none
  else do
    let country ← C40Encoder.decode (data.take 2)
    let countryIdentifier := country.map fun c => if c = 32 then 60 else c
    if data.length = 2 then
      some ⟨countryIdentifier, none, none, none⟩
    else do
      let alg := data.getD 2 0
      let cert := (data.drop 3).take 5
      let sigDate ← DateEncoder.decodeMaskedDate ((data.drop 8).take 4)
      some ⟨countryIdentifier, some alg, some cert, some sigDate⟩

end IDBHeader

/-- Character of the normalized C40 alphabet: space, `0-9`, `A-Z`. -/
def isC40Alpha (c : Nat) : Prop :=
  c = 32 ∨ (48 ≤ c ∧ c ≤ 57) ∨ (65 ≤ c ∧ c ≤ 90)

instance (c : Nat) : Decidable (isC40Alpha c) := by
  unfold isC40Alpha; infer_instance

/-- Character of the claim's input alphabet: `A-Z`, `0-9`, space, `<`. -/
def isC40Input (c : Nat) : Prop := c = 60 ∨ isC40Alpha c

instance (c : Nat) : Decidable (isC40Input c) := by
  unfold isC40Input; infer_instance

/-- The intermediate masked character array of
`DateEncoder.decodeMaskedDate` on the 4-byte input `[m, x, y, z]` (the
8-digit `MMDDYYYY` string with `x` written over the positions flagged in
`m`), named so that evaluation steps can be stated. -/
def maskedOf (m x y z : Nat) : List Nat :=
  (List.range 8).foldl
    (fun arr k => if (m >>> (7 - k)) &&& 1 = 1 then arr.set k 120 else arr)
    (padStartWith 2 48 (decDigits (bytesToNumberBE [x, y, z] / 1000000)) ++
     padStartWith 2 48 (decDigits (bytesToNumberBE [x, y, z] % 1000000 / 10000)) ++
     padStartWith 4 48 (decDigits (bytesToNumberBE [x, y, z] % 10000)))

/-- A masked-date digit slot: a decimal digit or the letter `x`. -/
def isDigitOrX (c : Nat) : Prop := (48 ≤ c ∧ c ≤ 57) ∨ c = 120

instance (c : Nat) : Decidable (isDigitOrX c) := by
  unfold isDigitOrX; infer_instance

/-- A concrete VDS header (the UTO/UTTS/5B header of the repository's
sample seal), used to instantiate universally quantified statements. -/
def sampleHeader : VDSHeader :=
  ⟨[85, 84, 79], [85, 84, 84, 83], [53, 66], ⟨1, 1, 2020⟩, ⟨12, 7, 2025⟩, 251, 6, 3⟩

/-- `jsSlice` with natural-number indices is drop-and-take. -/
theorem jsSlice_eq (lst : List Nat) (a b : Nat) :
    jsSlice lst a b =
      (lst.drop (min a lst.length)).take (min b lst.length - min a lst.length) := by
  unfold jsSlice
  have ha : ¬((a : Int) < 0) := by omega
  have hb : ¬((b : Int) < 0) := by omega
  simp only [ha, hb, if_false]
  have h1 : (min (a : Int) (lst.length : Int)).toNat = min a lst.length := by omega
  have h2 : (min (b : Int) (lst.length : Int)).toNat = min b lst.length := by omega
  rw [h1, h2]

/-- `DerTLV.decode` returns a TLV on every non-empty byte string. -/
theorem DerTLV.decode_cons (t : Nat) (rest : List Nat) :
    ∃ v, DerTLV.decode (t :: rest) = some v :=
  ⟨_, rfl⟩

/-- `DerTLV.decode` on a short-form length byte. -/
theorem DerTLV.decode_short (t l : Nat) (rest : List Nat) (hl : l ≤ 127) :
    DerTLV.decode (t :: l :: rest) =
      some ⟨t, rest.take (min (2 + l) (rest.length + 2) - 2)⟩ := by
  simp only [DerTLV.decode, List.getD_cons_zero,
    Nat.mod_eq_of_lt (show l < 256 by omega),
    if_neg (show ¬(l > 127) by omega)]
  have he : ((2 : Nat) : Int) + ((l : Nat) : Int) = ((2 + l : Nat) : Int) := by
    push_cast
    ring
  rw [he, jsSlice_eq]
  have hx : min (1 + 1) (t :: l :: rest).length = 2 := by
    rw [List.length_cons, List.length_cons]
    omega
  rw [hx]
  have hy : (t :: l :: rest).length = rest.length + 2 := by
    rw [List.length_cons, List.length_cons]
  rw [hy]
  simp only [List.drop_succ_cons, List.drop_zero]

/-- `int32Step` below the sign threshold is plain base-256 accumulation. -/
theorem int32Step_of_lt (acc : Int) (b : Nat) (h0 : 0 ≤ acc)
    (h1 : acc * 256 + 256 ≤ 2147483648) :
    int32Step acc b = acc * 256 + ((b % 256 : Nat) : Int) := by
  have hconv : ∀ x y : Int, x.emod y = x % y := fun _ _ => rfl
  simp only [int32Step, hconv]
  split <;> omega

/-- `parseTLVs` rejects an unsupported long-form length prefix. -/
theorem parseTLVs_badlen (t m : Nat) (rest : List Nat) (h1 : 127 < m % 256)
    (h2 : m % 256 ≠ 129) (h3 : m % 256 ≠ 130) (h4 : m % 256 ≠ 131) :
    parseTLVs (t :: m :: rest) = none := by
  unfold parseTLVs
  rw [if_pos ⟨h1, h2, h3, h4⟩]

/-- `parseTLVs` on an `0x81` long-form length with too few bytes left. -/
theorem parseTLVs_long81 (t b1 : Nat) (rest : List Nat) (hb1 : b1 ≤ 255)
    (hr : rest.length ≤ b1) :
    parseTLVs (t :: 129 :: b1 :: rest) = some [⟨t, rest⟩] := by
  unfold parseTLVs
  have h129 : (129 : Nat) % 256 = 129 := by norm_num
  rw [h129]
  rw [if_neg (show ¬((129 : Nat) > 127 ∧ (129 : Nat) ≠ 129 ∧ (129 : Nat) ≠ 130 ∧
    (129 : Nat) ≠ 131) by omega)]
  simp only [if_pos rfl, List.getD_cons_zero, List.drop_succ_cons, List.drop_zero,
    Nat.mod_eq_of_lt (show b1 < 256 by omega),
    List.drop_eq_nil_of_le hr, List.take_of_length_le hr]
  simp [parseTLVs, List.drop_eq_nil_of_le hr, hr]

/-- `parseTLVs` on an `0x82` long-form length with too few bytes left. -/
theorem parseTLVs_long82 (t b1 b2 : Nat) (rest : List Nat) (hb1 : b1 ≤ 255)
    (hb2 : b2 ≤ 255) (hr : rest.length ≤ b1 * 256 + b2) :
    parseTLVs (t :: 130 :: b1 :: b2 :: rest) = some [⟨t, rest⟩] := by
  unfold parseTLVs
  have h130 : (130 : Nat) % 256 = 130 := by norm_num
  rw [h130]
  rw [if_neg (show ¬((130 : Nat) > 127 ∧ (130 : Nat) ≠ 129 ∧ (130 : Nat) ≠ 130 ∧
    (130 : Nat) ≠ 131) by omega)]
  simp only [if_neg (show ¬((130 : Nat) = 129) by omega), if_pos rfl,
    List.getD_cons_zero, List.getD_cons_succ, List.drop_succ_cons, List.drop_zero,
    Nat.mod_eq_of_lt (show b1 < 256 by omega), Nat.mod_eq_of_lt (show b2 < 256 by omega)]
  simp [parseTLVs, List.drop_eq_nil_of_le hr, hr]

/-- `parseTLVs` on an `0x83` long-form length with too few bytes left. -/
theorem parseTLVs_long83 (t b1 b2 b3 : Nat) (rest : List Nat) (hb1 : b1 ≤ 255)
    (hb2 : b2 ≤ 255) (hb3 : b3 ≤ 255)
    (hr : rest.length ≤ b1 * 65536 + b2 * 256 + b3) :
    parseTLVs (t :: 131 :: b1 :: b2 :: b3 :: rest) = some [⟨t, rest⟩] := by
  unfold parseTLVs
  have h131 : (131 : Nat) % 256 = 131 := by norm_num
  rw [h131]
  rw [if_neg (show ¬((131 : Nat) > 127 ∧ (131 : Nat) ≠ 129 ∧ (131 : Nat) ≠ 130 ∧
    (131 : Nat) ≠ 131) by omega)]
  simp only [if_neg (show ¬((131 : Nat) = 129) by omega),
    if_neg (show ¬((131 : Nat) = 130) by omega), if_pos rfl,
    List.getD_cons_zero, List.getD_cons_succ, List.drop_succ_cons, List.drop_zero,
    Nat.mod_eq_of_lt (show b1 < 256 by omega), Nat.mod_eq_of_lt (show b2 < 256 by omega),
    Nat.mod_eq_of_lt (show b3 < 256 by omega)]
  simp [parseTLVs, List.drop_eq_nil_of_le hr, hr]

/-- `DerTLV.decode` on an `0x81` long-form length with too few bytes
left clamps the value to what remains. -/
theorem DerTLV.decode_long81 (t b1 : Nat) (rest : List Nat) (hb1 : b1 ≤ 255)
    (hr : rest.length ≤ b1) :
    DerTLV.decode (t :: 129 :: b1 :: rest) = some ⟨t, rest⟩ := by
  have e1 : int32Step 0 b1 = ((b1 : Nat) : Int) := by
    rw [int32Step_of_lt 0 b1 (by omega) (by omega)]
    omega
  simp only [DerTLV.decode, List.getD_cons_zero, List.getD_cons_succ]
  norm_num
  have hrange : List.range 1 = [0] := rfl
  simp only [hrange, List.foldl_cons, List.foldl_nil, Nat.add_zero,
    List.getElem?_cons_succ, List.getElem?_cons_zero, Option.getD_some, e1]
  rw [show (3 : Int) + ((b1 : Nat) : Int) = ((3 + b1 : Nat) : Int) by push_cast; ring]
  rw [show (3 : Int) = ((3 : Nat) : Int) by norm_num]
  rw [jsSlice_eq]
  have hlen : (t :: 129 :: b1 :: rest).length = rest.length + 3 := by
    simp
  rw [hlen]
  have h3 : min 3 (rest.length + 3) = 3 := by omega
  have hmb : min (3 + b1) (rest.length + 3) = rest.length + 3 := by omega
  rw [h3, hmb]
  simp [List.take_of_length_le]

/-- `DerTLV.decode` on an `0x82` long-form length with too few bytes
left clamps the value to what remains. -/
theorem DerTLV.decode_long82 (t b1 b2 : Nat) (rest : List Nat) (hb1 : b1 ≤ 255)
    (hb2 : b2 ≤ 255) (hr : rest.length ≤ b1 * 256 + b2) :
    DerTLV.decode (t :: 130 :: b1 :: b2 :: rest) = some ⟨t, rest⟩ := by
  have e1 : int32Step 0 b1 = ((b1 : Nat) : Int) := by
    rw [int32Step_of_lt 0 b1 (by omega) (by omega)]
    omega
  have e2 : int32Step ((b1 : Nat) : Int) b2 = ((b1 * 256 + b2 : Nat) : Int) := by
    rw [int32Step_of_lt _ b2 (by omega) (by omega)]
    omega
  simp only [DerTLV.decode, List.getD_cons_zero, List.getD_cons_succ]
  norm_num
  have hrange : List.range 2 = [0, 1] := rfl
  simp only [hrange, List.foldl_cons, List.foldl_nil, Nat.add_zero,
    show (1 : Nat) + 1 = 2 from rfl,
    List.getElem?_cons_succ, List.getElem?_cons_zero, Option.getD_some, e1, e2]
  rw [show (4 : Int) + ((b1 * 256 + b2 : Nat) : Int) =
    ((4 + (b1 * 256 + b2) : Nat) : Int) by push_cast; ring]
  rw [show (4 : Int) = ((4 : Nat) : Int) by norm_num]
  rw [jsSlice_eq]
  have hlen : (t :: 130 :: b1 :: b2 :: rest).length = rest.length + 4 := by
    simp
  rw [hlen]
  have h4 : min 4 (rest.length + 4) = 4 := by omega
  have hmb : min (4 + (b1 * 256 + b2)) (rest.length + 4) = rest.length + 4 := by omega
  rw [h4, hmb]
  simp [List.take_of_length_le]

/-- `DerTLV.decode` on an `0x83` long-form length with too few bytes
left clamps the value to what remains. -/
theorem DerTLV.decode_long83 (t b1 b2 b3 : Nat) (rest : List Nat) (hb1 : b1 ≤ 255)
    (hb2 : b2 ≤ 255) (hb3 : b3 ≤ 255)
    (hr : rest.length ≤ b1 * 65536 + b2 * 256 + b3) :
    DerTLV.decode (t :: 131 :: b1 :: b2 :: b3 :: rest) = some ⟨t, rest⟩ := by
  have e1 : int32Step 0 b1 = ((b1 : Nat) : Int) := by
    rw [int32Step_of_lt 0 b1 (by omega) (by omega)]
    omega
  have e2 : int32Step ((b1 : Nat) : Int) b2 = ((b1 * 256 + b2 : Nat) : Int) := by
    rw [int32Step_of_lt _ b2 (by omega) (by omega)]
    omega
  have e3 : int32Step ((b1 * 256 + b2 : Nat) : Int) b3 =
      ((b1 * 65536 + b2 * 256 + b3 : Nat) : Int) := by
    rw [int32Step_of_lt _ b3 (by omega) (by omega)]
    omega
  simp only [DerTLV.decode, List.getD_cons_zero, List.getD_cons_succ]
  norm_num
  have hrange : List.range 3 = [0, 1, 2] := rfl
  simp only [hrange, List.foldl_cons, List.foldl_nil, Nat.add_zero,
    show (1 : Nat) + 1 = 2 from rfl, show (1 : Nat) + 2 = 3 from rfl,
    List.getElem?_cons_succ, List.getElem?_cons_zero, Option.getD_some, e1, e2, e3]
  rw [show (5 : Int) + ((b1 * 65536 + b2 * 256 + b3 : Nat) : Int) =
    ((5 + (b1 * 65536 + b2 * 256 + b3) : Nat) : Int) by push_cast; ring]
  rw [show (5 : Int) = ((5 : Nat) : Int) by norm_num]
  rw [jsSlice_eq]
  have hlen : (t :: 131 :: b1 :: b2 :: b3 :: rest).length = rest.length + 5 := by
    simp
  rw [hlen]
  have h5 : min 5 (rest.length + 5) = 5 := by omega
  have hmb : min (5 + (b1 * 65536 + b2 * 256 + b3)) (rest.length + 5) =
      rest.length + 5 := by omega
  rw [h5, hmb]
  simp [List.take_of_length_le]

/-- C1: for every seal, `signedBytes` is the header encoding followed by
the message TLV encodings in list order; the signature field never
contributes to `signedBytes`; `encoded` is `signedBytes` exactly when no
signature is present, and `signedBytes` followed by the signature's raw
TLV (tag `0xFF`, value `r ‖ s`) when one is. -/
theorem seal_signedBytes_encoded (h : VDSHeader) (msgs : List DerTLV)
    (sig : Option ECDSARawSignature) :
    Seal.signedBytes ⟨h, msgs, sig⟩ =
      h.encoded.map (· ++ (msgs.map DerTLV.encoded).flatten) ∧
    Seal.signedBytes ⟨h, msgs, sig⟩ = Seal.signedBytes ⟨h, msgs, none⟩ ∧
    (sig = none → Seal.encoded ⟨h, msgs, sig⟩ = Seal.signedBytes ⟨h, msgs, sig⟩) ∧
    (∀ g, sig = some g → Seal.encoded ⟨h, msgs, sig⟩ =
      (Seal.signedBytes ⟨h, msgs, sig⟩).map (· ++ DerTLV.encoded ⟨255, g.r ++ g.s⟩)) := by
  refine ⟨rfl, rfl, ?_, ?_⟩
  · rintro rfl; rfl
  · rintro g rfl; rfl

/-- Witness for C1 at the sample header, with and without a signature. -/
theorem seal_signedBytes_encoded_witness :
    Seal.encoded ⟨sampleHeader, [], none⟩ = Seal.signedBytes ⟨sampleHeader, [], none⟩ ∧
    Seal.encoded ⟨sampleHeader, [], some ⟨[1], [2]⟩⟩ =
      (Seal.signedBytes ⟨sampleHeader, [], some ⟨[1], [2]⟩⟩).map
        (· ++ DerTLV.encoded ⟨255, [1] ++ [2]⟩) :=
  ⟨(seal_signedBytes_encoded sampleHeader [] none).2.2.1 rfl,
   (seal_signedBytes_encoded sampleHeader [] (some ⟨[1], [2]⟩)).2.2.2 _ rfl⟩

/-- C3: the C40 encoding of `"XK CD"` is `EB 04 66 A9`, and of `"XKCD"`
is `EB 11 FE 45`. -/
theorem c40_xkcd_vectors :
    C40Encoder.encode [88, 75, 32, 67, 68] = some [0xEB, 0x04, 0x66, 0xA9] ∧
    C40Encoder.encode [88, 75, 67, 68] = some [0xEB, 0x11, 0xFE, 0x45] := by
  decide

/-- C4 (failing input): on `r = 00 80` the zero-stripping branch of
`DerTLV.getDerInteger` exposes a content byte with its high bit set and
no preceding zero byte, i.e. the INTEGER `80` (the negative two's
complement value `-128`), violating the non-negativity requirement; the
prepend branch on `80` shows the intended form `00 80`. -/
theorem getDerInteger_strips_to_negative :
    DerTLV.getDerInteger [0x00, 0x80] = [2, 1, 0x80] ∧
    DerTLV.getDerInteger [0x80] = [2, 2, 0x00, 0x80] := by
  decide

/-- C5 (counterexample): a declared length of 5 with no bytes left does
not fail — both parsers return the TLV with an empty, silently clamped
value. -/
theorem parse_truncated_no_error :
    parseTLVs [1, 5] = some [⟨1, []⟩] ∧ DerTLV.decode [1, 5] = some ⟨1, []⟩ := by
  constructor
  · simp [parseTLVs]
  · rw [DerTLV.decode_short 1 5 [] (by omega)]
    rfl

/-- C5 (amended): a declared length that exceeds the bytes remaining
never makes parsing fail — `DerTLV.decode` and `parseTLVs` both return
the TLV with its value silently clamped to the available bytes, in the
short form and in each of the three supported long forms `0x81`, `0x82`,
`0x83`; `parseTLVs` does fail when the buffer ends immediately after a
tag byte (before any length byte) and when the first length byte is an
unsupported long-form prefix (`0x80` or `0x84`–`0xFF`). -/
theorem parse_truncated_clamps (t l m b1 b2 b3 : Nat) (rest : List Nat)
    (hl : l ≤ 127) (hrl : rest.length < l)
    (hm1 : 127 < m % 256) (hm2 : m % 256 ≠ 129) (hm3 : m % 256 ≠ 130)
    (hm4 : m % 256 ≠ 131)
    (hb1 : b1 ≤ 255) (hb2 : b2 ≤ 255) (hb3 : b3 ≤ 255)
    (hr1 : rest.length < b1) (hr2 : rest.length < b1 * 256 + b2)
    (hr3 : rest.length < b1 * 65536 + b2 * 256 + b3) :
    (DerTLV.decode (t :: l :: rest) = some ⟨t, rest⟩ ∧
      parseTLVs (t :: l :: rest) = some [⟨t, rest⟩]) ∧
    (DerTLV.decode (t :: 129 :: b1 :: rest) = some ⟨t, rest⟩ ∧
      parseTLVs (t :: 129 :: b1 :: rest) = some [⟨t, rest⟩]) ∧
    (DerTLV.decode (t :: 130 :: b1 :: b2 :: rest) = some ⟨t, rest⟩ ∧
      parseTLVs (t :: 130 :: b1 :: b2 :: rest) = some [⟨t, rest⟩]) ∧
    (DerTLV.decode (t :: 131 :: b1 :: b2 :: b3 :: rest) = some ⟨t, rest⟩ ∧
      parseTLVs (t :: 131 :: b1 :: b2 :: b3 :: rest) = some [⟨t, rest⟩]) ∧
    parseTLVs (t :: m :: rest) = none ∧
    parseTLVs [t] = none := by
  refine ⟨⟨?_, ?_⟩, ⟨DerTLV.decode_long81 t b1 rest hb1 (le_of_lt hr1),
      parseTLVs_long81 t b1 rest hb1 (le_of_lt hr1)⟩,
    ⟨DerTLV.decode_long82 t b1 b2 rest hb1 hb2 (le_of_lt hr2),
      parseTLVs_long82 t b1 b2 rest hb1 hb2 (le_of_lt hr2)⟩,
    ⟨DerTLV.decode_long83 t b1 b2 b3 rest hb1 hb2 hb3 (le_of_lt hr3),
      parseTLVs_long83 t b1 b2 b3 rest hb1 hb2 hb3 (le_of_lt hr3)⟩,
    parseTLVs_badlen t m rest hm1 hm2 hm3 hm4, by simp [parseTLVs]⟩
  · rw [DerTLV.decode_short t l rest hl]
    have h3 : min (2 + l) (rest.length + 2) = rest.length + 2 := by omega
    rw [h3]
    simp
  · unfold parseTLVs
    have hl2 : l % 256 = l := Nat.mod_eq_of_lt (by omega)
    rw [hl2]
    have hc : ¬(l > 127 ∧ l ≠ 129 ∧ l ≠ 130 ∧ l ≠ 131) := by omega
    rw [if_neg hc]
    have hdrop : rest.drop l = [] := List.drop_eq_nil_of_le (by omega)
    have htake : rest.take l = rest := List.take_of_length_le (by omega)
    simp only [if_neg (show ¬(l = 129) by omega), if_neg (show ¬(l = 130) by omega),
      if_neg (show ¬(l = 131) by omega), hdrop, htake]
    simp [parseTLVs]

/-- Witness for C5 (amended): tag 7 with two value bytes left, under a
short-form declared length 9, long-form lengths `81 09` / `82 09 09` /
`83 09 09 09`, the unsupported prefix `0x80`, and a tag-only buffer. -/
theorem parse_truncated_clamps_witness :
    (DerTLV.decode [7, 9, 4, 5] = some ⟨7, [4, 5]⟩ ∧
      parseTLVs [7, 9, 4, 5] = some [⟨7, [4, 5]⟩]) ∧
    (DerTLV.decode [7, 129, 9, 4, 5] = some ⟨7, [4, 5]⟩ ∧
      parseTLVs [7, 129, 9, 4, 5] = some [⟨7, [4, 5]⟩]) ∧
    (DerTLV.decode [7, 130, 9, 9, 4, 5] = some ⟨7, [4, 5]⟩ ∧
      parseTLVs [7, 130, 9, 9, 4, 5] = some [⟨7, [4, 5]⟩]) ∧
    (DerTLV.decode [7, 131, 9, 9, 9, 4, 5] = some ⟨7, [4, 5]⟩ ∧
      parseTLVs [7, 131, 9, 9, 9, 4, 5] = some [⟨7, [4, 5]⟩]) ∧
    parseTLVs [7, 128, 4, 5] = none ∧
    parseTLVs [7] = none :=
  parse_truncated_clamps 7 9 128 9 9 9 [4, 5] (by decide) (by decide) (by decide)
    (by decide) (by decide) (by decide) (by decide) (by decide) (by decide)
    (by decide) (by decide) (by decide)

/-- C6: `IDBHeader.decode` fails on every input whose length is neither
exactly 2 nor exactly 12 (lengths outside `[2, 12]` fail the explicit
bound check; lengths 3–11 leave the masked signature date with fewer
than its required 4 bytes). -/
theorem idb_header_length (bs : List Nat) (h2 : bs.length ≠ 2)
    (h12 : bs.length ≠ 12) : IDBHeader.decode bs = none := by
  unfold IDBHeader.decode
  by_cases hb : 2 ≤ bs.length ∧ bs.length ≤ 12
  · rw [if_neg (not_not_intro hb)]
    have hmd : DateEncoder.decodeMaskedDate ((bs.drop 8).take 4) = none := by
      unfold DateEncoder.decodeMaskedDate
      rw [if_pos]
      simp only [List.length_take, List.length_drop]
      omega
    cases hc : C40Encoder.decode (bs.take 2) with
    | none => rfl
    | some country =>
        have hne : bs.length ≠ 2 := h2
        simp [hc, hne, hmd]
  · rw [if_pos hb]

/-- Witness for C6 at a 5-byte input. -/
theorem idb_header_length_witness : IDBHeader.decode [254, 33, 9, 9, 9] = none :=
  idb_header_length [254, 33, 9, 9, 9] (by decide) (by decide)

/-- C10: `DerTLV.decode` is total — `null` (here `none`) on the empty
input, and a TLV on every non-empty input, no matter how the length
field is malformed. -/
theorem derTLV_decode_total :
    DerTLV.decode [] = none ∧
    ∀ bs : List Nat, bs ≠ [] → ∃ v, DerTLV.decode bs = some v := by
  refine ⟨rfl, ?_⟩
  intro bs h
  cases bs with
  | nil => exact absurd rfl h
  | cons t rest => exact DerTLV.decode_cons t rest

/-- Witness for C10 on a one-byte input (truncated length field). -/
theorem derTLV_decode_total_witness : ∃ v, DerTLV.decode [48] = some v :=
  derTLV_decode_total.2 [48] (by decide)

/-- `decDigitsGo` ignores the exact fuel once it is sufficient. -/
theorem decDigitsGo_fuel : ∀ (f1 f2 n : Nat), n < f1 → n < f2 →
    decDigitsGo n f1 = decDigitsGo n f2 := by
  intro f1
  induction f1 with
  | zero => omega
  | succ f ih =>
      intro f2 n h1 h2
      cases f2 with
      | zero => omega
      | succ f2' =>
          show (if n < 10 then [48 + n] else decDigitsGo (n / 10) f ++ [48 + n % 10]) =
            (if n < 10 then [48 + n] else decDigitsGo (n / 10) f2' ++ [48 + n % 10])
          by_cases h10 : n < 10
          · rw [if_pos h10, if_pos h10]
          · rw [if_neg h10, if_neg h10, ih f2' (n / 10) (by omega) (by omega)]

/-- Recurrence of `decDigits`. -/
theorem decDigits_eq (n : Nat) :
    decDigits n = if n < 10 then [48 + n] else decDigits (n / 10) ++ [48 + n % 10] := by
  show (if n < 10 then [48 + n] else decDigitsGo (n / 10) n ++ [48 + n % 10]) = _
  by_cases h10 : n < 10
  · rw [if_pos h10, if_pos h10]
  · rw [if_neg h10, if_neg h10,
      decDigitsGo_fuel n (n / 10 + 1) (n / 10) (by omega) (by omega)]
    rfl

/-- C7 (counterexample): a raw-TLV signature whose value has odd length 3
decodes without any error; `r` gets 1 byte and `s` gets 2. -/
theorem sig_decode_odd_no_error :
    ECDSARawSignature.decode 255 [255, 3, 170, 187, 204] =
      some ⟨[170], [187, 204]⟩ := by
  decide

/-- C7 (amended): raw-TLV signature decoding fails exactly on a leading
tag mismatch (including the empty input); on success the TLV value is
split at the truncated index `value.length / 2` — `r` and `s` have equal
length only when the value's length is even, an odd length loses no byte
but is not rejected. -/
theorem sig_decode_split (TAG : Nat) (data : List Nat) :
    ECDSARawSignature.decode TAG [] = none ∧
    (∀ t rest, data = t :: rest → t ≠ TAG →
      ECDSARawSignature.decode TAG data = none) ∧
    (∀ g, ECDSARawSignature.decode TAG data = some g →
      ∃ p, DerTLV.decode data = some p ∧
        g.r = p.value.take (p.value.length / 2) ∧
        g.s = p.value.drop (p.value.length / 2) ∧
        (p.value.length % 2 = 0 → g.r.length = g.s.length)) := by
  refine ⟨rfl, ?_, ?_⟩
  · rintro t rest rfl ht
    simp only [ECDSARawSignature.decode]
    rw [if_pos ht]
  · intro g hg
    cases data with
    | nil => exact absurd hg (by simp [ECDSARawSignature.decode])
    | cons t rest =>
        simp only [ECDSARawSignature.decode] at hg
        by_cases ht : t ≠ TAG
        · rw [if_pos ht] at hg
          exact absurd hg (by simp)
        · rw [if_neg ht] at hg
          obtain ⟨p, hp⟩ := DerTLV.decode_cons t rest
          rw [hp] at hg
          injection hg with hg
          refine ⟨p, hp, ?_, ?_, ?_⟩
          · rw [← hg]
          · rw [← hg]
          · intro heven
            rw [← hg]
            simp only [List.length_take, List.length_drop]
            omega

/-- Witness for C7 (amended): tag mismatch fails; an even 2-byte value
splits into equal halves. -/
theorem sig_decode_split_witness :
    ECDSARawSignature.decode 255 [254, 2, 5, 6] = none ∧
    ∃ p, DerTLV.decode [255, 2, 5, 6] = some p ∧
      (ECDSARawSignature.mk [5] [6]).r = p.value.take (p.value.length / 2) ∧
      (ECDSARawSignature.mk [5] [6]).s = p.value.drop (p.value.length / 2) ∧
      (p.value.length % 2 = 0 →
        (ECDSARawSignature.mk [5] [6]).r.length =
          (ECDSARawSignature.mk [5] [6]).s.length) :=
  ⟨(sig_decode_split 255 [254, 2, 5, 6]).2.1 254 [2, 5, 6] rfl (by decide),
   (sig_decode_split 255 [255, 2, 5, 6]).2.2 ⟨[5], [6]⟩ (by decide)⟩

/-- `C40Encoder.decodeCore` depends on the tail beyond a leading pair
only through its own recursive value. -/
theorem decodeCore_congr (b1 b2 : Nat) (X Y : List Nat)
    (h : C40Encoder.decodeCore X = C40Encoder.decodeCore Y) :
    C40Encoder.decodeCore (b1 :: b2 :: X) = C40Encoder.decodeCore (b1 :: b2 :: Y) := by
  simp only [C40Encoder.decodeCore]
  rw [h]

/-- Dropping the unpaired final byte of an odd-length input does not
change `C40Encoder.decodeCore`. -/
theorem decodeCore_odd_aux : ∀ (n : Nat) (bs : List Nat), bs.length ≤ n →
    bs.length % 2 = 1 → C40Encoder.decodeCore bs = C40Encoder.decodeCore bs.dropLast := by
  intro n
  induction n with
  | zero =>
      intro bs h h1
      omega
  | succ n ih =>
      intro bs hlen hodd
      rcases bs with _ | ⟨b1, _ | ⟨b2, rest⟩⟩
      · simp at hodd
      · rfl
      · have hodd' : rest.length % 2 = 1 := by
          simp only [List.length_cons] at hodd
          omega
        rcases rest with _ | ⟨r, rs⟩
        · simp at hodd'
        · have hdl : (b1 :: b2 :: r :: rs).dropLast = b1 :: b2 :: (r :: rs).dropLast := rfl
          rw [hdl]
          refine decodeCore_congr b1 b2 _ _ (ih (r :: rs) ?_ hodd')
          simp only [List.length_cons] at hlen ⊢
          omega

/-- C9 (counterexample): `C40Encoder.decode` accepts the odd-length input
`FE 42 00` without error, decoding the leading pair to `"A"` and silently
ignoring the trailing byte; and `DateEncoder.encodeMaskedDate` accepts
`"abcd-ef-gh"` (no digit in any slot) without error, the unparsable
number collapsing to zero bytes. -/
theorem odd_c40_and_lax_masked_input :
    C40Encoder.decode [0xFE, 0x42, 0x00] = some [0x41] ∧
    DateEncoder.encodeMaskedDate [97, 98, 99, 100, 45, 101, 102, 45, 103, 104] =
      some [0, 0, 0, 0] := by
  decide

/-- C9 (amended): `C40Encoder.decode` does not fail on odd-length input —
it decodes as if the unpaired final byte were absent; the three date
decoders fail on every slice of the wrong size (3/6/4 bytes
respectively); `DateEncoder.encodeMaskedDate` fails exactly when the
masked-date regex `(.{4})-(.{2})-(.{2})` finds no match — slot characters
are otherwise unconstrained. -/
theorem sub_encoder_size_checks :
    (∀ bs : List Nat, bs.length % 2 = 1 →
      C40Encoder.decode bs = C40Encoder.decode bs.dropLast) ∧
    (∀ bs : List Nat, bs.length ≠ 3 → DateEncoder.decode bs = none) ∧
    (∀ bs : List Nat, bs.length ≠ 6 → DateEncoder.decodeDateTime bs = none) ∧
    (∀ bs : List Nat, bs.length ≠ 4 → DateEncoder.decodeMaskedDate bs = none) ∧
    (∀ s : List Nat, DateEncoder.encodeMaskedDate s = none ↔ maskedDateFind s = none) := by
  refine ⟨?_, ?_, ?_, ?_, ?_⟩
  · intro bs h
    exact decodeCore_odd_aux bs.length bs le_rfl h
  · intro bs h
    unfold DateEncoder.decode
    rw [if_pos h]
  · intro bs h
    unfold DateEncoder.decodeDateTime
    rw [if_pos h]
  · intro bs h
    unfold DateEncoder.decodeMaskedDate
    rw [if_pos h]
  · intro s
    unfold DateEncoder.encodeMaskedDate
    cases h : maskedDateFind s <;> simp

/-- Witness for C9 (amended) on concrete slices. -/
theorem sub_encoder_size_checks_witness :
    C40Encoder.decode [0xFE, 0x42, 0x00] = C40Encoder.decode [0xFE, 0x42] ∧
    DateEncoder.decode [1, 2] = none ∧
    DateEncoder.decodeDateTime [1, 2, 3] = none ∧
    DateEncoder.decodeMaskedDate [1, 2, 3] = none ∧
    (DateEncoder.encodeMaskedDate [] = none ↔ maskedDateFind [] = none) :=
  ⟨by
      have h := sub_encoder_size_checks.1 [0xFE, 0x42, 0x00] (by decide)
      simpa using h,
   sub_encoder_size_checks.2.1 [1, 2] (by decide),
   sub_encoder_size_checks.2.2.1 [1, 2, 3] (by decide),
   sub_encoder_size_checks.2.2.2.1 [1, 2, 3] (by decide),
   sub_encoder_size_checks.2.2.2.2 []⟩

/-- `Int.fdiv` on casts of naturals is natural division. -/
theorem fdiv_natCast (m k : Nat) :
    ((m : Nat) : Int).fdiv ((k : Nat) : Int) = ((m / k : Nat) : Int) :=
  (Int.ofNat_fdiv m k).symm

/-- Every character of the normalized C40 alphabet has a C40 value in
`[3, 39]` that `getChar` maps back to the character. -/
theorem c40_char_inverse (c : Nat) (h : isC40Alpha c) :
    ∃ v : Nat, C40Encoder.getC40Value c = some v ∧ 3 ≤ v ∧ v ≤ 39 ∧
      C40Encoder.getChar (v : Int) = some [c] := by
  have hc : c % 256 = c := Nat.mod_eq_of_lt (by rcases h with h | h | h <;> omega)
  rcases h with h | h | h
  · subst h
    exact ⟨3, by decide, by omega, by omega, by decide⟩
  · refine ⟨c - 44, ?_, by omega, by omega, ?_⟩
    · simp only [C40Encoder.getC40Value, hc]
      rw [if_neg (by omega), if_pos (by omega)]
    · simp only [C40Encoder.getChar]
      rw [if_neg (by omega), if_pos (by constructor <;> omega)]
      have he : ((c - 44 : Nat) : Int) + 44 = ((c : Nat) : Int) := by omega
      rw [he, Int.toNat_natCast]
  · refine ⟨c - 51, ?_, by omega, by omega, ?_⟩
    · simp only [C40Encoder.getC40Value, hc]
      rw [if_neg (by omega), if_neg (by omega), if_pos (by omega)]
    · simp only [C40Encoder.getChar]
      rw [if_neg (by omega), if_neg (by omega),
        if_pos (by constructor <;> omega)]
      have he : ((c - 51 : Nat) : Int) + 51 = ((c : Nat) : Int) := by omega
      rw [he, Int.toNat_natCast]

/-- `C40Encoder.decodeCore` on one packed pair (`c3 = 0` is the
trailing-pair form, whose third sub-value decodes to no character). -/
theorem decodeCore_packed (c1 c2 c3 : Nat) (l1 l2 l3 rest : List Nat)
    (h1 : 3 ≤ c1 ∧ c1 ≤ 39) (h2 : 3 ≤ c2 ∧ c2 ≤ 39) (h3 : c3 ≤ 39)
    (hg1 : C40Encoder.getChar (c1 : Int) = some l1)
    (hg2 : C40Encoder.getChar (c2 : Int) = some l2)
    (hg3 : (if (c3 : Int) ≠ 0 then C40Encoder.getChar (c3 : Int) else some []) = some l3) :
    C40Encoder.decodeCore ((1600 * c1 + 40 * c2 + c3 + 1) / 256 ::
        (1600 * c1 + 40 * c2 + c3 + 1) % 256 :: rest) =
      (C40Encoder.decodeCore rest).map (l1 ++ l2 ++ l3 ++ ·) := by
  set s := 1600 * c1 + 40 * c2 + c3 + 1 with hs
  have hd1 : s / 256 < 256 := by omega
  have h254 : ¬(s / 256 % 256 = 254) := by
    rw [Nat.mod_eq_of_lt hd1]
    omega
  simp only [C40Encoder.decodeCore]
  rw [if_neg h254]
  have hs1 : s / 256 % 256 = s / 256 := Nat.mod_eq_of_lt hd1
  have hs2 : s % 256 % 256 = s % 256 := Nat.mod_eq_of_lt (Nat.mod_lt _ (by omega))
  simp only [hs1, hs2]
  have hv : ((s / 256 : Nat) : Int) * 256 + ((s % 256 : Nat) : Int) - 1 =
      ((1600 * c1 + 40 * c2 + c3 : Nat) : Int) := by omega
  simp only [hv]
  have hu1 : ((1600 * c1 + 40 * c2 + c3 : Nat) : Int).fdiv (1600 : Int) =
      ((c1 : Nat) : Int) := by
    rw [show (1600 : Int) = ((1600 : Nat) : Int) from rfl, fdiv_natCast]
    congr 1
    omega
  simp only [hu1]
  have hr : ((1600 * c1 + 40 * c2 + c3 : Nat) : Int) - ((c1 : Nat) : Int) * 1600 =
      ((40 * c2 + c3 : Nat) : Int) := by
    push_cast
    omega
  simp only [hr]
  have hu2 : ((40 * c2 + c3 : Nat) : Int).fdiv (40 : Int) = ((c2 : Nat) : Int) := by
    rw [show (40 : Int) = ((40 : Nat) : Int) from rfl, fdiv_natCast]
    congr 1
    omega
  simp only [hu2]
  have hu3 : ((40 * c2 + c3 : Nat) : Int) - ((c2 : Nat) : Int) * 40 =
      ((c3 : Nat) : Int) := by
    push_cast
    omega
  simp only [hu3]
  have hc1 : ((c1 : Nat) : Int) ≠ 0 := by omega
  have hc2 : ((c2 : Nat) : Int) ≠ 0 := by omega
  by_cases hc3 : ((c3 : Nat) : Int) ≠ 0
  · rw [if_pos hc3] at hg3
    simp only [if_pos hc1, hg1, if_pos hc2, hg2, if_pos hc3, hg3, Option.some_bind]
    cases hd : C40Encoder.decodeCore rest <;> simp
  · rw [if_neg hc3] at hg3
    injection hg3 with hg3
    subst hg3
    simp only [if_pos hc1, hg1, if_pos hc2, hg2, if_neg hc3, Option.some_bind]
    cases hd : C40Encoder.decodeCore rest <;> simp

/-- Round trip of the C40 chunking over the normalized alphabet. -/
theorem encodeCore_decodeCore_aux : ∀ (n : Nat) (t : List Nat), t.length ≤ n →
    (∀ c ∈ t, isC40Alpha c) →
    ∃ e, C40Encoder.encodeCore t = some e ∧ C40Encoder.decodeCore e = some t := by
  intro n
  induction n with
  | zero =>
      intro t ht _
      have hn : t = [] := List.eq_nil_of_length_eq_zero (by omega)
      subst hn
      exact ⟨[], rfl, rfl⟩
  | succ n ih =>
      intro t ht h
      rcases t with _ | ⟨a, _ | ⟨b, _ | ⟨c, rest⟩⟩⟩
      · exact ⟨[], rfl, rfl⟩
      · have ha := h a (by simp)
        have ha' : a ≤ 90 := by rcases ha with h' | h' | h' <;> omega
        refine ⟨[254, a % 256 + 1], rfl, ?_⟩
        have h1 : a % 256 = a := Nat.mod_eq_of_lt (by omega)
        have h2 : (a + 1) % 256 = a + 1 := Nat.mod_eq_of_lt (by omega)
        have hch : ((a + 1) % 256 + 65535) % 65536 = a := by
          rw [h2]
          omega
        simp [C40Encoder.decodeCore, h1, hch]
      · obtain ⟨va, hva, hva1, hva2, hgca⟩ := c40_char_inverse a (h a (by simp))
        obtain ⟨vb, hvb, hvb1, hvb2, hgcb⟩ := c40_char_inverse b (h b (by simp))
        refine ⟨[(1600 * va + 40 * vb + 1) / 256, (1600 * va + 40 * vb + 1) % 256],
          ?_, ?_⟩
        · simp [C40Encoder.encodeCore, hva, hvb]
        · have hpk := decodeCore_packed va vb 0 [a] [b] [] []
            ⟨hva1, hva2⟩ ⟨hvb1, hvb2⟩ (by omega) hgca hgcb (by norm_num)
          have hz : 1600 * va + 40 * vb + 1 = 1600 * va + 40 * vb + 0 + 1 := rfl
          rw [hz, hpk]
          simp [C40Encoder.decodeCore]
      · obtain ⟨va, hva, hva1, hva2, hgca⟩ := c40_char_inverse a (h a (by simp))
        obtain ⟨vb, hvb, hvb1, hvb2, hgcb⟩ := c40_char_inverse b (h b (by simp))
        obtain ⟨vc, hvc, hvc1, hvc2, hgcc⟩ := c40_char_inverse c (h c (by simp))
        obtain ⟨e', he', hd'⟩ := ih rest
          (by simp only [List.length_cons] at ht ⊢; omega)
          (fun x hx => h x (by simp [hx]))
        refine ⟨[(1600 * va + 40 * vb + vc + 1) / 256,
            (1600 * va + 40 * vb + vc + 1) % 256] ++ e', ?_, ?_⟩
        · simp [C40Encoder.encodeCore, hva, hvb, hvc, he']
        · have hg3 : (if (vc : Int) ≠ 0 then C40Encoder.getChar (vc : Int) else some []) =
              some [c] := by
            rw [if_pos (show ((vc : Nat) : Int) ≠ 0 by omega)]
            exact hgcc
          have hpk := decodeCore_packed va vb vc [a] [b] [c] e'
            ⟨hva1, hva2⟩ ⟨hvb1, hvb2⟩ (by omega) hgca hgcb hg3
          show C40Encoder.decodeCore
            ((1600 * va + 40 * vb + vc + 1) / 256 ::
              (1600 * va + 40 * vb + vc + 1) % 256 :: e') = _
          rw [hpk, hd']
          simp

/-- Over the claim's input alphabet, the encoder's normalization is just
`'<' → ' '` (upper-casing cannot change the characters and none is a
carriage return or newline). -/
theorem filter_eq_self_of {p : Nat → Bool} :
    ∀ (l : List Nat), (∀ a ∈ l, p a = true) → l.filter p = l := by
  intro l
  induction l with
  | nil => intro _; rfl
  | cons a t ih =>
      intro h
      rw [List.filter_cons, if_pos (h a (by simp)), ih (fun c hc => h c (by simp [hc]))]

theorem normalize_input (s : List Nat) (h : ∀ c ∈ s, isC40Input c) :
    C40Encoder.normalize s = s.map (fun c => if c = 60 then 32 else c) := by
  unfold C40Encoder.normalize
  have hup : s.map asciiUpper = s := by
    have hcong : s.map asciiUpper = s.map id := by
      refine List.map_congr_left ?_
      intro x hx
      have hx' := h x hx
      unfold asciiUpper
      rcases hx' with h' | h' | h' | h' <;> rw [if_neg (by omega)] <;> rfl
    rw [hcong, List.map_id]
  rw [hup]
  have hmem : ∀ c ∈ s.map (fun c => if c = 60 then 32 else c), c ≠ 13 ∧ c ≠ 10 := by
    intro c hc
    simp only [List.mem_map] at hc
    obtain ⟨x, hx, rfl⟩ := hc
    rcases h x hx with h' | h' | h' | h' <;> constructor <;> split <;> omega
  rw [filter_eq_self_of _ (fun a ha => by
    simpa using (hmem a (List.mem_filter.mp ha).1).2)]
  rw [filter_eq_self_of _ (fun a ha => by simpa using (hmem a ha).1)]

/-- C2: for every string over `{A-Z, 0-9, space, <}`, C40 encoding
succeeds and decoding the result gives back the normalized string
(`<` turned into space), covering the trailing-pair and `0xFE`-escape
forms for lengths not divisible by 3. -/
theorem c40_roundtrip (s : List Nat) (h : ∀ c ∈ s, isC40Input c) :
    ∃ e, C40Encoder.encode s = some e ∧
      C40Encoder.decode e = some (s.map fun c => if c = 60 then 32 else c) := by
  unfold C40Encoder.encode C40Encoder.decode
  rw [normalize_input s h]
  refine encodeCore_decodeCore_aux (s.map fun c => if c = 60 then 32 else c).length _
    le_rfl ?_
  intro c hc
  simp only [List.mem_map] at hc
  obtain ⟨x, hx, rfl⟩ := hc
  rcases h x hx with h' | h'
  · rw [if_pos h']
    exact Or.inl rfl
  · have hne : x ≠ 60 := by
      rcases h' with h'' | h'' | h'' <;> omega
    rw [if_neg hne]
    exact h'

/-- Witness for C2 on `"AB<12"` (a trailing pair after one full triple). -/
theorem c40_roundtrip_witness :
    (∀ c ∈ [65, 66, 60, 49, 50], isC40Input c) ∧
    ∃ e, C40Encoder.encode [65, 66, 60, 49, 50] = some e ∧
      C40Encoder.decode e =
        some ([65, 66, 60, 49, 50].map fun c => if c = 60 then 32 else c) :=
  ⟨by decide, c40_roundtrip [65, 66, 60, 49, 50] (by decide)⟩

theorem takeWhile_eq_self_of {p : Nat → Bool} :
    ∀ (l : List Nat), (∀ a ∈ l, p a = true) → l.takeWhile p = l := by
  intro l
  induction l with
  | nil => intro _; rfl
  | cons a t ih =>
      intro h
      rw [List.takeWhile_cons, if_pos (h a (by simp)), ih (fun c hc => h c (by simp [hc]))]

/-- `parseIntJS` on a non-empty all-digit string is its decimal value. -/
theorem parseIntJS_digits (l : List Nat) (hne : l ≠ [])
    (h : ∀ c ∈ l, isDigitCode c) : parseIntJS l = some ((digitRunVal l : Int)) := by
  obtain ⟨x, xs, rfl⟩ := List.exists_cons_of_ne_nil hne
  have hx := h x (by simp)
  unfold isDigitCode at hx
  have hsp : isJsSpace x = false := by
    simp [isJsSpace]
    omega
  have hc45 : ¬(x = 43 ∨ x = 45) := by omega
  simp only [parseIntJS]
  rw [List.dropWhile_cons, if_neg (show ¬(isJsSpace x = true) by simp [hsp])]
  simp only [List.headD_cons]
  rw [if_neg hc45]
  rw [takeWhile_eq_self_of (x :: xs) (fun a ha => by simpa [isDigitCode] using h a ha)]
  rw [if_neg (show ¬(x :: xs = []) by simp)]
  rw [if_neg (show ¬(x = 45) by omega)]

/-- `decDigits` below 10. -/
theorem decDigits_1 (n : Nat) (h : n < 10) : decDigits n = [48 + n] := by
  rw [decDigits_eq, if_pos h]

/-- `decDigits` of two-digit numbers. -/
theorem decDigits_2 (n : Nat) (h1 : 10 ≤ n) (h2 : n < 100) :
    decDigits n = [48 + n / 10, 48 + n % 10] := by
  rw [decDigits_eq, if_neg (by omega), decDigits_1 _ (by omega)]
  rfl

/-- `decDigits` of three-digit numbers. -/
theorem decDigits_3 (n : Nat) (h1 : 100 ≤ n) (h2 : n < 1000) :
    decDigits n = [48 + n / 100, 48 + n / 10 % 10, 48 + n % 10] := by
  rw [decDigits_eq, if_neg (by omega), decDigits_2 (n / 10) (by omega) (by omega)]
  have ha : n / 10 / 10 = n / 100 := by omega
  have hb : n / 10 % 10 = n / 10 % 10 := rfl
  rw [ha]
  rfl

/-- `decDigits` of four-digit numbers. -/
theorem decDigits_4 (n : Nat) (h1 : 1000 ≤ n) (h2 : n < 10000) :
    decDigits n = [48 + n / 1000, 48 + n / 100 % 10, 48 + n / 10 % 10, 48 + n % 10] := by
  rw [decDigits_eq, if_neg (by omega), decDigits_3 (n / 10) (by omega) (by omega)]
  have ha : n / 10 / 100 = n / 1000 := by omega
  have hb : n / 10 / 10 % 10 = n / 100 % 10 := by omega
  rw [ha, hb]
  rfl

/-- Two-character `padStart` of `toString` is the two-digit decimal. -/
theorem pad2_dec (n : Nat) (h : n < 100) :
    padStartWith 2 48 (decDigits n) = [48 + n / 10, 48 + n % 10] := by
  by_cases h10 : n < 10
  · rw [decDigits_1 _ h10]
    show [48, 48 + n] = _
    have h0 : n / 10 = 0 := by omega
    have hm : n % 10 = n := by omega
    rw [h0, hm]
  · rw [decDigits_2 n (by omega) h]
    rfl

/-- Four-character `padStart` of `toString` is the four-digit decimal. -/
theorem pad4_dec (n : Nat) (h : n < 10000) :
    padStartWith 4 48 (decDigits n) =
      [48 + n / 1000, 48 + n / 100 % 10, 48 + n / 10 % 10, 48 + n % 10] := by
  by_cases ha : n < 10
  · rw [decDigits_1 _ ha]
    show [48, 48, 48, 48 + n] = _
    have e1 : n / 1000 = 0 := by omega
    have e2 : n / 100 % 10 = 0 := by omega
    have e3 : n / 10 % 10 = 0 := by omega
    have e4 : n % 10 = n := by omega
    rw [e1, e2, e3, e4]
  · by_cases hb : n < 100
    · rw [decDigits_2 n (by omega) hb]
      show [48, 48, 48 + n / 10, 48 + n % 10] = _
      have e1 : n / 1000 = 0 := by omega
      have e2 : n / 100 % 10 = 0 := by omega
      have e3 : n / 10 % 10 = n / 10 := by omega
      rw [e1, e2, e3]
    · by_cases hc : n < 1000
      · rw [decDigits_3 n (by omega) hc]
        show [48, 48 + n / 100, 48 + n / 10 % 10, 48 + n % 10] = _
        have e1 : n / 1000 = 0 := by omega
        have e2 : n / 100 % 10 = n / 100 := by omega
        rw [e1, e2]
      · rw [decDigits_4 n (by omega) h]
        rfl

/-- A list of length 8 is the list of its first eight elements. -/
theorem list_eight (l : List Nat) (h : l.length = 8) :
    l = [l.getD 0 0, l.getD 1 0, l.getD 2 0, l.getD 3 0,
         l.getD 4 0, l.getD 5 0, l.getD 6 0, l.getD 7 0] := by
  match l, h with
  | [b0, b1, b2, b3, b4, b5, b6, b7], _ => rfl

/-- Two folds over the same list with pointwise-equal step functions
agree. -/
theorem foldl_congr_fn {α β : Type} :
    ∀ (l : List α) (f g : β → α → β) (init : β),
      (∀ b a, a ∈ l → f b a = g b a) → l.foldl f init = l.foldl g init := by
  intro l
  induction l with
  | nil => intro _ _ _ _; rfl
  | cons x xs ih =>
      intro f g init h
      simp only [List.foldl_cons]
      rw [h init x (by simp)]
      exact ih f g _ (fun b a ha => h b a (by simp [ha]))

/-- The masked-position fold of `encodeMaskedDate` over eight booleans,
evaluated. -/
theorem maskFold_val : ∀ (b0 b1 b2 b3 b4 b5 b6 b7 : Bool),
    (List.range 8).foldl (fun m k =>
        if [b0, b1, b2, b3, b4, b5, b6, b7].getD k false = true
        then m ||| (128 >>> k) else m) 0 =
      (cond b0 128 0) + (cond b1 64 0) + (cond b2 32 0) + (cond b3 16 0) +
      (cond b4 8 0) + (cond b5 4 0) + (cond b6 2 0) + (cond b7 1 0) := by
  decide

/-- Bits of the eight-boolean mask value. -/
theorem maskFold_bit : ∀ (b0 b1 b2 b3 b4 b5 b6 b7 : Bool) (k : Nat), k < 8 →
    (((cond b0 128 0) + (cond b1 64 0) + (cond b2 32 0) + (cond b3 16 0) +
      (cond b4 8 0) + (cond b5 4 0) + (cond b6 2 0) + (cond b7 1 0)) >>> (7 - k)) &&& 1 =
      cond ([b0, b1, b2, b3, b4, b5, b6, b7].getD k false) 1 0 := by
  decide

/-- The eight-boolean mask value is a byte. -/
theorem maskFold_le : ∀ (b0 b1 b2 b3 b4 b5 b6 b7 : Bool),
    (cond b0 128 0) + (cond b1 64 0) + (cond b2 32 0) + (cond b3 16 0) +
      (cond b4 8 0) + (cond b5 4 0) + (cond b6 2 0) + (cond b7 1 0) ≤ 255 := by
  decide

/-- Digit-or-`x` characters are matched by the regex dot. -/
theorem isRegexDot_digitOrX (c : Nat) (h : isDigitOrX c) : isRegexDot c = true := by
  unfold isDigitOrX at h
  simp [isRegexDot]
  omega

/-- Digit-or-`x` characters are not upper-case letters. -/
theorem asciiLower_digitOrX (c : Nat) (h : isDigitOrX c) : asciiLower c = c := by
  unfold isDigitOrX at h
  unfold asciiLower
  rw [if_neg (by omega)]

/-- The write-`x` fold of `decodeMaskedDate` preserves the length. -/
theorem foldl_set_length (P : Nat → Prop) [DecidablePred P] :
    ∀ (ks : List Nat) (l : List Nat),
      (ks.foldl (fun arr t => if P t then arr.set t 120 else arr) l).length = l.length := by
  intro ks
  induction ks with
  | nil => intro l; rfl
  | cons t ts ih =>
      intro l
      simp only [List.foldl_cons]
      rw [ih]
      split <;> simp

/-- Elementwise value of the write-`x` fold of `decodeMaskedDate`. -/
theorem foldl_set_getD (P : Nat → Prop) [DecidablePred P] :
    ∀ (ks : List Nat) (l : List Nat) (k : Nat), k < l.length →
      (ks.foldl (fun arr t => if P t then arr.set t 120 else arr) l).getD k 0 =
        if k ∈ ks ∧ P k then 120 else l.getD k 0 := by
  intro ks
  induction ks with
  | nil =>
      intro l k hk
      simp
  | cons t ts ih =>
      intro l k hk
      simp only [List.foldl_cons]
      have hlen : (if P t then l.set t 120 else l).length = l.length := by
        split <;> simp
      rw [ih _ k (by rw [hlen]; exact hk)]
      by_cases hcond : k ∈ ts ∧ P k
      · rw [if_pos hcond, if_pos ⟨List.mem_cons_of_mem t hcond.1, hcond.2⟩]
      · rw [if_neg hcond]
        by_cases hcond2 : k ∈ t :: ts ∧ P k
        · rw [if_pos hcond2]
          have hPk := hcond2.2
          have htk : t = k := by
            rcases List.mem_cons.mp hcond2.1 with he | he
            · exact he.symm
            · exact absurd ⟨he, hPk⟩ hcond
          subst htk
          rw [if_pos hPk]
          simp [List.getD, List.getElem?_set, hk]
        · rw [if_neg hcond2]
          split
          · rename_i hPt
            have htk : t ≠ k := by
              intro he
              exact hcond2 ⟨by simp [he], he ▸ hPt⟩
            simp [List.getD, List.getElem?_set, htk]
          · rfl

/-- Zeta-expanded success branch of `encodeMaskedDate`. -/
theorem encodeMaskedDate_some (s : List Nat) (idx : Nat)
    (h : maskedDateFind s = some idx) :
    DateEncoder.encodeMaskedDate s =
      some [(List.range 8).foldl
          (fun m k => if ((s.take idx ++ (s.drop (idx + 5)).take 2 ++
              (s.drop (idx + 8)).take 2 ++ (s.drop idx).take 4 ++
              s.drop (idx + 10)).map asciiLower).getD k 0 = 120
            then m ||| (128 >>> k) else m) 0 % 256,
        jsToUint32 (parseIntJS (((s.take idx ++ (s.drop (idx + 5)).take 2 ++
            (s.drop (idx + 8)).take 2 ++ (s.drop idx).take 4 ++
            s.drop (idx + 10)).map asciiLower).map
          fun c => if c = 120 then 48 else c)) >>> 16 % 256,
        jsToUint32 (parseIntJS (((s.take idx ++ (s.drop (idx + 5)).take 2 ++
            (s.drop (idx + 8)).take 2 ++ (s.drop idx).take 4 ++
            s.drop (idx + 10)).map asciiLower).map
          fun c => if c = 120 then 48 else c)) >>> 8 % 256,
        jsToUint32 (parseIntJS (((s.take idx ++ (s.drop (idx + 5)).take 2 ++
            (s.drop (idx + 8)).take 2 ++ (s.drop idx).take 4 ++
            s.drop (idx + 10)).map asciiLower).map
          fun c => if c = 120 then 48 else c)) % 256] := by
  unfold DateEncoder.encodeMaskedDate
  rw [h]

/-- Zeta-expanded success branch of `decodeMaskedDate` on a 4-byte
input. -/
theorem decodeMaskedDate_some (m x y z : Nat) :
    DateEncoder.decodeMaskedDate [m, x, y, z] =
      some ((match dateGroupsFind (maskedOf m x y z) with
        | none => maskedOf m x y z
        | some i2 => (maskedOf m x y z).take i2 ++
            ((maskedOf m x y z).drop (i2 + 4)).take 4 ++ [45] ++
            ((maskedOf m x y z).drop i2).take 2 ++ [45] ++
            ((maskedOf m x y z).drop (i2 + 2)).take 2 ++
            (maskedOf m x y z).drop (i2 + 8)).map asciiLower) := by
  unfold DateEncoder.decodeMaskedDate
  rw [if_neg (by simp)]
  unfold maskedOf
  rfl

/-- `getD` on the decide-boolean list mirrors the character list. -/
theorem boolList_getD (f0 f1 f2 f3 f4 f5 f6 f7 : Nat) :
    ∀ k, k < 8 →
      (([decide (f0 = 120), decide (f1 = 120), decide (f2 = 120), decide (f3 = 120),
         decide (f4 = 120), decide (f5 = 120), decide (f6 = 120),
         decide (f7 = 120)].getD k false = true) ↔
        ([f0, f1, f2, f3, f4, f5, f6, f7].getD k 0 = 120)) := by
  intro k hk
  interval_cases k <;> simp

/-- The accumulator fold of `digitRunVal` is bounded by a power of ten. -/
theorem digitRunVal_foldl_lt : ∀ (l : List Nat) (acc : Nat), (∀ c ∈ l, isDigitCode c) →
    l.foldl (fun a c => a * 10 + (c - 48)) acc < (acc + 1) * 10 ^ l.length := by
  intro l
  induction l with
  | nil =>
      intro acc h
      simp
  | cons c t ih =>
      intro acc h
      simp only [List.foldl_cons, List.length_cons]
      have hc := h c (by simp)
      unfold isDigitCode at hc
      calc t.foldl (fun a c => a * 10 + (c - 48)) (acc * 10 + (c - 48))
          < (acc * 10 + (c - 48) + 1) * 10 ^ t.length :=
            ih (acc * 10 + (c - 48)) (fun x hx => h x (by simp [hx]))
        _ ≤ ((acc + 1) * 10) * 10 ^ t.length :=
            Nat.mul_le_mul_right _ (by omega)
        _ = (acc + 1) * 10 ^ (t.length + 1) := by ring

/-- The masked-date regex matches a well-shaped ten-character string at
position 0. -/
theorem maskedDateFind_shape (a b c d f g i j : Nat)
    (ha : isDigitOrX a) (hb : isDigitOrX b) (hc : isDigitOrX c) (hd : isDigitOrX d)
    (hf : isDigitOrX f) (hg : isDigitOrX g) (hi : isDigitOrX i) (hj : isDigitOrX j) :
    maskedDateFind [a, b, c, d, 45, f, g, 45, i, j] = some 0 := by
  unfold maskedDateFind
  rw [show ([a, b, c, d, 45, f, g, 45, i, j] : List Nat).length + 1 = 11 from rfl]
  rw [show List.range 11 = [0, 1, 2, 3, 4, 5, 6, 7, 8, 9, 10] from rfl]
  apply List.find?_cons_of_pos
  unfold maskedDateMatchAt
  rw [show (([a, b, c, d, 45, f, g, 45, i, j] : List Nat).drop 0).take 4 = [a, b, c, d]
      from rfl,
    show (([a, b, c, d, 45, f, g, 45, i, j] : List Nat).drop (0 + 5)).take 2 = [f, g]
      from rfl,
    show (([a, b, c, d, 45, f, g, 45, i, j] : List Nat).drop (0 + 8)).take 2 = [i, j]
      from rfl,
    show ([a, b, c, d, 45, f, g, 45, i, j] : List Nat).getD (0 + 4) 0 = 45 from rfl,
    show ([a, b, c, d, 45, f, g, 45, i, j] : List Nat).getD (0 + 7) 0 = 45 from rfl]
  simp [isRegexDot_digitOrX _ ha, isRegexDot_digitOrX _ hb, isRegexDot_digitOrX _ hc,
    isRegexDot_digitOrX _ hd, isRegexDot_digitOrX _ hf, isRegexDot_digitOrX _ hg,
    isRegexDot_digitOrX _ hi, isRegexDot_digitOrX _ hj]

/-- Evaluation of `encodeMaskedDate` on a well-shaped `yyyy-MM-dd` string
of digit-or-`x` slots: mask byte with bit `7 - i` for masked position `i`
of the reordered `MMDDYYYY` string, then the three low bytes of its value
with `x` as `0`. -/
theorem encodeMaskedDate_eval (a b c d f g i j : Nat)
    (ha : isDigitOrX a) (hb : isDigitOrX b) (hc : isDigitOrX c) (hd : isDigitOrX d)
    (hf : isDigitOrX f) (hg : isDigitOrX g) (hi : isDigitOrX i) (hj : isDigitOrX j) :
    DateEncoder.encodeMaskedDate [a, b, c, d, 45, f, g, 45, i, j] =
      some [(if f = 120 then 128 else 0) + (if g = 120 then 64 else 0) +
          (if i = 120 then 32 else 0) + (if j = 120 then 16 else 0) +
          (if a = 120 then 8 else 0) + (if b = 120 then 4 else 0) +
          (if c = 120 then 2 else 0) + (if d = 120 then 1 else 0),
        digitRunVal ([f, g, i, j, a, b, c, d].map
          fun t => if t = 120 then 48 else t) >>> 16 % 256,
        digitRunVal ([f, g, i, j, a, b, c, d].map
          fun t => if t = 120 then 48 else t) >>> 8 % 256,
        digitRunVal ([f, g, i, j, a, b, c, d].map
          fun t => if t = 120 then 48 else t) % 256] := by
  rw [encodeMaskedDate_some _ 0 (maskedDateFind_shape a b c d f g i j ha hb hc hd hf hg hi hj)]
  have hform : (([a, b, c, d, 45, f, g, 45, i, j] : List Nat).take 0 ++
      (([a, b, c, d, 45, f, g, 45, i, j] : List Nat).drop (0 + 5)).take 2 ++
      (([a, b, c, d, 45, f, g, 45, i, j] : List Nat).drop (0 + 8)).take 2 ++
      (([a, b, c, d, 45, f, g, 45, i, j] : List Nat).drop 0).take 4 ++
      ([a, b, c, d, 45, f, g, 45, i, j] : List Nat).drop (0 + 10)).map asciiLower =
      [f, g, i, j, a, b, c, d] := by
    show [asciiLower f, asciiLower g, asciiLower i, asciiLower j,
      asciiLower a, asciiLower b, asciiLower c, asciiLower d] = _
    rw [asciiLower_digitOrX f hf, asciiLower_digitOrX g hg, asciiLower_digitOrX i hi,
      asciiLower_digitOrX j hj, asciiLower_digitOrX a ha, asciiLower_digitOrX b hb,
      asciiLower_digitOrX c hc, asciiLower_digitOrX d hd]
  rw [hform]
  have hdig : ∀ x ∈ ([f, g, i, j, a, b, c, d].map fun t => if t = 120 then 48 else t),
      isDigitCode x := by
    intro x hx
    simp only [List.mem_map] at hx
    obtain ⟨y, hy, rfl⟩ := hx
    have hdx : isDigitOrX y := by
      simp only [List.mem_cons, List.not_mem_nil, or_false] at hy
      rcases hy with rfl | rfl | rfl | rfl | rfl | rfl | rfl | rfl <;> assumption
    unfold isDigitOrX at hdx
    unfold isDigitCode
    split <;> omega
  rw [parseIntJS_digits _ (by simp) hdig]
  have hub : digitRunVal ([f, g, i, j, a, b, c, d].map fun t => if t = 120 then 48 else t) <
      100000000 := by
    have hb8 := digitRunVal_foldl_lt
      ([f, g, i, j, a, b, c, d].map fun t => if t = 120 then 48 else t) 0 hdig
    simp only [List.length_map] at hb8
    unfold digitRunVal
    calc ([f, g, i, j, a, b, c, d].map fun t => if t = 120 then 48 else t).foldl
          (fun a c => a * 10 + (c - 48)) 0
        < (0 + 1) * 10 ^ ([f, g, i, j, a, b, c, d] : List Nat).length := hb8
      _ = 100000000 := by norm_num
  have hu : jsToUint32 (some ((digitRunVal ([f, g, i, j, a, b, c, d].map
      fun t => if t = 120 then 48 else t) : Nat) : Int)) =
      digitRunVal ([f, g, i, j, a, b, c, d].map fun t => if t = 120 then 48 else t) := by
    show (((digitRunVal ([f, g, i, j, a, b, c, d].map
      fun t => if t = 120 then 48 else t) : Nat) : Int) % 4294967296).toNat = _
    omega
  rw [hu]
  have hfold : (List.range 8).foldl
      (fun m k => if ([f, g, i, j, a, b, c, d] : List Nat).getD k 0 = 120
        then m ||| (128 >>> k) else m) 0 =
      (if f = 120 then 128 else 0) + (if g = 120 then 64 else 0) +
      (if i = 120 then 32 else 0) + (if j = 120 then 16 else 0) +
      (if a = 120 then 8 else 0) + (if b = 120 then 4 else 0) +
      (if c = 120 then 2 else 0) + (if d = 120 then 1 else 0) := by
    rw [foldl_congr_fn (List.range 8) _
      (fun m k => if ([decide (f = 120), decide (g = 120), decide (i = 120),
          decide (j = 120), decide (a = 120), decide (b = 120), decide (c = 120),
          decide (d = 120)].getD k false = true)
        then m ||| (128 >>> k) else m) 0
      (fun m k hk =>
        if_congr ((boolList_getD f g i j a b c d k (List.mem_range.mp hk)).symm) rfl rfl)]
    rw [maskFold_val]
    simp only [Bool.cond_decide]
  rw [hfold]
  have hMle : (if f = 120 then 128 else 0) + (if g = 120 then 64 else 0) +
      (if i = 120 then 32 else 0) + (if j = 120 then 16 else 0) +
      (if a = 120 then 8 else 0) + (if b = 120 then 4 else 0) +
      (if c = 120 then 2 else 0) + (if d = 120 then 1 else 0) ≤ 255 := by
    have e1 : (if f = 120 then 128 else 0) ≤ 128 := by split <;> omega
    have e2 : (if g = 120 then 64 else 0) ≤ 64 := by split <;> omega
    have e3 : (if i = 120 then 32 else 0) ≤ 32 := by split <;> omega
    have e4 : (if j = 120 then 16 else 0) ≤ 16 := by split <;> omega
    have e5 : (if a = 120 then 8 else 0) ≤ 8 := by split <;> omega
    have e6 : (if b = 120 then 4 else 0) ≤ 4 := by split <;> omega
    have e7 : (if c = 120 then 2 else 0) ≤ 2 := by split <;> omega
    have e8 : (if d = 120 then 1 else 0) ≤ 1 := by split <;> omega
    omega
  rw [Nat.mod_eq_of_lt (by omega)]

/-- Evaluation of `decodeMaskedDate` on the four bytes produced for a
well-shaped masked date whose packed value fits in three bytes: the
original string comes back. -/
theorem decodeMaskedDate_eval (a b c d f g i j V : Nat)
    (ha : isDigitOrX a) (hb : isDigitOrX b) (hc : isDigitOrX c) (hd : isDigitOrX d)
    (hf : isDigitOrX f) (hg : isDigitOrX g) (hi : isDigitOrX i) (hj : isDigitOrX j)
    (hV : V = digitRunVal ([f, g, i, j, a, b, c, d].map
      fun t => if t = 120 then 48 else t))
    (hlt : V < 16777216) :
    DateEncoder.decodeMaskedDate
      [(if f = 120 then 128 else 0) + (if g = 120 then 64 else 0) +
        (if i = 120 then 32 else 0) + (if j = 120 then 16 else 0) +
        (if a = 120 then 8 else 0) + (if b = 120 then 4 else 0) +
        (if c = 120 then 2 else 0) + (if d = 120 then 1 else 0),
       V / 65536, V / 256 % 256, V % 256] = some [a, b, c, d, 45, f, g, 45, i, j] := by
  obtain ⟨f', hf1, hf2, hf3⟩ : ∃ v, (if f = 120 then 48 else f) = v ∧ 48 ≤ v ∧ v ≤ 57 :=
    ⟨_, rfl, by rcases hf with h | h <;> constructor <;> split <;> omega⟩
  obtain ⟨g', hg1, hg2, hg3⟩ : ∃ v, (if g = 120 then 48 else g) = v ∧ 48 ≤ v ∧ v ≤ 57 :=
    ⟨_, rfl, by rcases hg with h | h <;> constructor <;> split <;> omega⟩
  obtain ⟨i', hi1, hi2, hi3⟩ : ∃ v, (if i = 120 then 48 else i) = v ∧ 48 ≤ v ∧ v ≤ 57 :=
    ⟨_, rfl, by rcases hi with h | h <;> constructor <;> split <;> omega⟩
  obtain ⟨j', hj1, hj2, hj3⟩ : ∃ v, (if j = 120 then 48 else j) = v ∧ 48 ≤ v ∧ v ≤ 57 :=
    ⟨_, rfl, by rcases hj with h | h <;> constructor <;> split <;> omega⟩
  obtain ⟨a', ha1, ha2, ha3⟩ : ∃ v, (if a = 120 then 48 else a) = v ∧ 48 ≤ v ∧ v ≤ 57 :=
    ⟨_, rfl, by rcases ha with h | h <;> constructor <;> split <;> omega⟩
  obtain ⟨b', hb1, hb2, hb3⟩ : ∃ v, (if b = 120 then 48 else b) = v ∧ 48 ≤ v ∧ v ≤ 57 :=
    ⟨_, rfl, by rcases hb with h | h <;> constructor <;> split <;> omega⟩
  obtain ⟨c', hc1, hc2, hc3⟩ : ∃ v, (if c = 120 then 48 else c) = v ∧ 48 ≤ v ∧ v ≤ 57 :=
    ⟨_, rfl, by rcases hc with h | h <;> constructor <;> split <;> omega⟩
  obtain ⟨d', hd1, hd2, hd3⟩ : ∃ v, (if d = 120 then 48 else d) = v ∧ 48 ≤ v ∧ v ≤ 57 :=
    ⟨_, rfl, by rcases hd with h | h <;> constructor <;> split <;> omega⟩
  have hmap : ([f, g, i, j, a, b, c, d].map fun t => if t = 120 then 48 else t) =
      [f', g', i', j', a', b', c', d'] := by
    simp only [List.map_cons, List.map_nil]
    rw [hf1, hg1, hi1, hj1, ha1, hb1, hc1, hd1]
  rw [hmap] at hV
  simp only [digitRunVal, List.foldl_cons, List.foldl_nil] at hV
  rw [decodeMaskedDate_some]
  have hint : bytesToNumberBE [V / 65536, V / 256 % 256, V % 256] = V := by
    simp only [bytesToNumberBE, List.foldl_cons, List.foldl_nil]
    omega
  have hmasked : maskedOf
      ((if f = 120 then 128 else 0) + (if g = 120 then 64 else 0) +
        (if i = 120 then 32 else 0) + (if j = 120 then 16 else 0) +
        (if a = 120 then 8 else 0) + (if b = 120 then 4 else 0) +
        (if c = 120 then 2 else 0) + (if d = 120 then 1 else 0))
      (V / 65536) (V / 256 % 256) (V % 256) = [f, g, i, j, a, b, c, d] := by
    unfold maskedOf
    rw [hint]
    have hdca : padStartWith 2 48 (decDigits (V / 1000000)) ++
        padStartWith 2 48 (decDigits (V % 1000000 / 10000)) ++
        padStartWith 4 48 (decDigits (V % 10000)) = [f', g', i', j', a', b', c', d'] := by
      rw [pad2_dec _ (by omega), pad2_dec _ (by omega), pad4_dec _ (by omega)]
      have hmo : V / 1000000 = 10 * (f' - 48) + (g' - 48) := by omega
      have hda : V % 1000000 / 10000 = 10 * (i' - 48) + (j' - 48) := by omega
      have hyr : V % 10000 =
          1000 * (a' - 48) + 100 * (b' - 48) + 10 * (c' - 48) + (d' - 48) := by omega
      rw [hmo, hda, hyr]
      simp only [List.cons_append, List.nil_append, List.cons.injEq, and_true]
      refine ⟨by omega, by omega, by omega, by omega, by omega, by omega, by omega, by omega⟩
    rw [hdca]
    have hbitP : ∀ k, k < 8 →
        ((((if f = 120 then 128 else 0) + (if g = 120 then 64 else 0) +
          (if i = 120 then 32 else 0) + (if j = 120 then 16 else 0) +
          (if a = 120 then 8 else 0) + (if b = 120 then 4 else 0) +
          (if c = 120 then 2 else 0) + (if d = 120 then 1 else 0)) >>> (7 - k)) &&& 1 = 1 ↔
          ([f, g, i, j, a, b, c, d] : List Nat).getD k 0 = 120) := by
      intro k hk
      have hMc : (cond (decide (f = 120)) 128 0) + (cond (decide (g = 120)) 64 0) +
          (cond (decide (i = 120)) 32 0) + (cond (decide (j = 120)) 16 0) +
          (cond (decide (a = 120)) 8 0) + (cond (decide (b = 120)) 4 0) +
          (cond (decide (c = 120)) 2 0) + (cond (decide (d = 120)) 1 0) =
          (if f = 120 then 128 else 0) + (if g = 120 then 64 else 0) +
          (if i = 120 then 32 else 0) + (if j = 120 then 16 else 0) +
          (if a = 120 then 8 else 0) + (if b = 120 then 4 else 0) +
          (if c = 120 then 2 else 0) + (if d = 120 then 1 else 0) := by
        simp only [Bool.cond_decide]
      rw [← hMc, maskFold_bit (decide (f = 120)) (decide (g = 120)) (decide (i = 120))
        (decide (j = 120)) (decide (a = 120)) (decide (b = 120)) (decide (c = 120))
        (decide (d = 120)) k hk]
      rw [← boolList_getD f g i j a b c d k hk]
      cases hbk : ([decide (f = 120), decide (g = 120), decide (i = 120), decide (j = 120),
        decide (a = 120), decide (b = 120), decide (c = 120),
        decide (d = 120)].getD k false) <;> simp [hbk]
    have hlen8 : ((List.range 8).foldl
        (fun arr k => if (((if f = 120 then 128 else 0) + (if g = 120 then 64 else 0) +
          (if i = 120 then 32 else 0) + (if j = 120 then 16 else 0) +
          (if a = 120 then 8 else 0) + (if b = 120 then 4 else 0) +
          (if c = 120 then 2 else 0) + (if d = 120 then 1 else 0)) >>> (7 - k)) &&& 1 = 1
          then arr.set k 120 else arr)
        [f', g', i', j', a', b', c', d']).length = 8 := by
      rw [foldl_set_length]
      rfl
    rw [list_eight _ hlen8]
    have hel : ∀ k, k < 8 → ((List.range 8).foldl
        (fun arr k => if (((if f = 120 then 128 else 0) + (if g = 120 then 64 else 0) +
          (if i = 120 then 32 else 0) + (if j = 120 then 16 else 0) +
          (if a = 120 then 8 else 0) + (if b = 120 then 4 else 0) +
          (if c = 120 then 2 else 0) + (if d = 120 then 1 else 0)) >>> (7 - k)) &&& 1 = 1
          then arr.set k 120 else arr)
        [f', g', i', j', a', b', c', d']).getD k 0 =
        if ([f, g, i, j, a, b, c, d] : List Nat).getD k 0 = 120 then 120
        else ([f', g', i', j', a', b', c', d'] : List Nat).getD k 0 := by
      intro k hk
      rw [foldl_set_getD _ (List.range 8) _ k
        (show k < ([f', g', i', j', a', b', c', d'] : List Nat).length from hk)]
      refine if_congr ?_ rfl rfl
      rw [List.mem_range]
      constructor
      · rintro ⟨_, hp⟩
        exact (hbitP k hk).mp hp
      · intro hcm
        exact ⟨hk, (hbitP k hk).mpr hcm⟩
    rw [hel 0 (by omega), hel 1 (by omega), hel 2 (by omega), hel 3 (by omega),
      hel 4 (by omega), hel 5 (by omega), hel 6 (by omega), hel 7 (by omega)]
    rw [show ([f, g, i, j, a, b, c, d] : List Nat).getD 0 0 = f from rfl,
      show ([f, g, i, j, a, b, c, d] : List Nat).getD 1 0 = g from rfl,
      show ([f, g, i, j, a, b, c, d] : List Nat).getD 2 0 = i from rfl,
      show ([f, g, i, j, a, b, c, d] : List Nat).getD 3 0 = j from rfl,
      show ([f, g, i, j, a, b, c, d] : List Nat).getD 4 0 = a from rfl,
      show ([f, g, i, j, a, b, c, d] : List Nat).getD 5 0 = b from rfl,
      show ([f, g, i, j, a, b, c, d] : List Nat).getD 6 0 = c from rfl,
      show ([f, g, i, j, a, b, c, d] : List Nat).getD 7 0 = d from rfl,
      show ([f', g', i', j', a', b', c', d'] : List Nat).getD 0 0 = f' from rfl,
      show ([f', g', i', j', a', b', c', d'] : List Nat).getD 1 0 = g' from rfl,
      show ([f', g', i', j', a', b', c', d'] : List Nat).getD 2 0 = i' from rfl,
      show ([f', g', i', j', a', b', c', d'] : List Nat).getD 3 0 = j' from rfl,
      show ([f', g', i', j', a', b', c', d'] : List Nat).getD 4 0 = a' from rfl,
      show ([f', g', i', j', a', b', c', d'] : List Nat).getD 5 0 = b' from rfl,
      show ([f', g', i', j', a', b', c', d'] : List Nat).getD 6 0 = c' from rfl,
      show ([f', g', i', j', a', b', c', d'] : List Nat).getD 7 0 = d' from rfl]
    rw [show (if f = 120 then 120 else f') = f by
        split
        · omega
        · rename_i h
          rw [← hf1, if_neg h],
      show (if g = 120 then 120 else g') = g by
        split
        · omega
        · rename_i h
          rw [← hg1, if_neg h],
      show (if i = 120 then 120 else i') = i by
        split
        · omega
        · rename_i h
          rw [← hi1, if_neg h],
      show (if j = 120 then 120 else j') = j by
        split
        · omega
        · rename_i h
          rw [← hj1, if_neg h],
      show (if a = 120 then 120 else a') = a by
        split
        · omega
        · rename_i h
          rw [← ha1, if_neg h],
      show (if b = 120 then 120 else b') = b by
        split
        · omega
        · rename_i h
          rw [← hb1, if_neg h],
      show (if c = 120 then 120 else c') = c by
        split
        · omega
        · rename_i h
          rw [← hc1, if_neg h],
      show (if d = 120 then 120 else d') = d by
        split
        · omega
        · rename_i h
          rw [← hd1, if_neg h]]
  rw [hmasked]
  have hgfind : dateGroupsFind [f, g, i, j, a, b, c, d] = some 0 := by
    unfold dateGroupsFind
    rw [show ([f, g, i, j, a, b, c, d] : List Nat).length + 1 = 9 from rfl]
    rw [show List.range 9 = [0, 1, 2, 3, 4, 5, 6, 7, 8] from rfl]
    apply List.find?_cons_of_pos
    unfold dateGroupsMatchAt
    rw [show (([f, g, i, j, a, b, c, d] : List Nat).drop 0).take 8 =
      [f, g, i, j, a, b, c, d] from rfl]
    simp [isRegexDot_digitOrX _ ha, isRegexDot_digitOrX _ hb, isRegexDot_digitOrX _ hc,
      isRegexDot_digitOrX _ hd, isRegexDot_digitOrX _ hf, isRegexDot_digitOrX _ hg,
      isRegexDot_digitOrX _ hi, isRegexDot_digitOrX _ hj]
  rw [hgfind]
  show some ([asciiLower a, asciiLower b, asciiLower c, asciiLower d, asciiLower 45,
    asciiLower f, asciiLower g, asciiLower 45, asciiLower i, asciiLower j] : List Nat) =
    some ([a, b, c, d, 45, f, g, 45, i, j] : List Nat)
  rw [asciiLower_digitOrX a ha, asciiLower_digitOrX b hb, asciiLower_digitOrX c hc,
    asciiLower_digitOrX d hd, asciiLower_digitOrX f hf, asciiLower_digitOrX g hg,
    asciiLower_digitOrX i hi, asciiLower_digitOrX j hj,
    show asciiLower 45 = 45 from rfl]

/-- C8 (counterexample): `"9999-99-99"` has a decimal digit in every
slot, but its packed `MMDDYYYY` value `99999999` overflows the three
stored bytes; decoding the four encoded bytes yields `"3919-16-11"`, not
the original string, so the round trip fails as claimed for this input. -/
theorem masked_date_overflow :
    DateEncoder.encodeMaskedDate [57, 57, 57, 57, 45, 57, 57, 45, 57, 57] =
      some [0, 245, 224, 255] ∧
    DateEncoder.decodeMaskedDate [0, 245, 224, 255] =
      some [51, 57, 49, 57, 45, 49, 54, 45, 49, 49] ∧
    ([51, 57, 49, 57, 45, 49, 54, 45, 49, 49] : List Nat) ≠
      [57, 57, 57, 57, 45, 57, 57, 45, 57, 57] := by
  refine ⟨by decide, ?_, by decide⟩
  decide

/-- C8 (amended): for every masked-date string `yyyy-MM-dd` whose digit
slots hold a decimal digit or `x` and whose packed `MMDDYYYY` value `V`
(with `x` read as `0`) fits in three bytes (`V < 2^24` — true of every
real date, where `MM ≤ 12`), the encoding is exactly 4 bytes — the mask
byte carrying bit `7 - i` for each masked position `i` of the reordered
`MMDDYYYY` digit string, then the 3-byte big-endian `V` — and decoding
those bytes restores the original string, `x`s included. -/
theorem masked_date_roundtrip (a b c d f g i j V : Nat)
    (ha : isDigitOrX a) (hb : isDigitOrX b) (hc : isDigitOrX c) (hd : isDigitOrX d)
    (hf : isDigitOrX f) (hg : isDigitOrX g) (hi : isDigitOrX i) (hj : isDigitOrX j)
    (hV : V = digitRunVal ([f, g, i, j, a, b, c, d].map
      fun t => if t = 120 then 48 else t))
    (hlt : V < 16777216) :
    DateEncoder.encodeMaskedDate [a, b, c, d, 45, f, g, 45, i, j] =
      some [(if f = 120 then 128 else 0) + (if g = 120 then 64 else 0) +
          (if i = 120 then 32 else 0) + (if j = 120 then 16 else 0) +
          (if a = 120 then 8 else 0) + (if b = 120 then 4 else 0) +
          (if c = 120 then 2 else 0) + (if d = 120 then 1 else 0),
        V / 65536, V / 256 % 256, V % 256] ∧
    DateEncoder.decodeMaskedDate
      [(if f = 120 then 128 else 0) + (if g = 120 then 64 else 0) +
        (if i = 120 then 32 else 0) + (if j = 120 then 16 else 0) +
        (if a = 120 then 8 else 0) + (if b = 120 then 4 else 0) +
        (if c = 120 then 2 else 0) + (if d = 120 then 1 else 0),
       V / 65536, V / 256 % 256, V % 256] = some [a, b, c, d, 45, f, g, 45, i, j] := by
  constructor
  · rw [encodeMaskedDate_eval a b c d f g i j ha hb hc hd hf hg hi hj, ← hV]
    have h1 : V >>> 16 % 256 = V / 65536 := by
      rw [Nat.shiftRight_eq_div_pow, show (2 : Nat) ^ 16 = 65536 from rfl]
      omega
    have h2 : V >>> 8 % 256 = V / 256 % 256 := by
      rw [Nat.shiftRight_eq_div_pow, show (2 : Nat) ^ 8 = 256 from rfl]
    rw [h1, h2]
  · exact decodeMaskedDate_eval a b c d f g i j V ha hb hc hd hf hg hi hj hV hlt

/-- Witness for C8 at the repository's own test vector `"19xx-xx-01"`
(encoding `C3 00 2E 7C`). -/
theorem masked_date_roundtrip_witness :
    DateEncoder.encodeMaskedDate [49, 57, 120, 120, 45, 120, 120, 45, 48, 49] =
      some [195, 0, 46, 124] ∧
    DateEncoder.decodeMaskedDate [195, 0, 46, 124] =
      some [49, 57, 120, 120, 45, 120, 120, 45, 48, 49] :=
  masked_date_roundtrip 49 57 120 120 120 120 48 49 11900
    (by decide) (by decide) (by decide) (by decide) (by decide) (by decide)
    (by decide) (by decide) (by decide) (by decide)

end VdsLib
